import Mathlib

/-!
Verification development for the Enhanced Root Layer Validator
(`controlplane/baseline/validation/enhanced_validator.py`).

The Python source is shallowly embedded below.  Conventions of the embedding:

* A parsed YAML document is a `Yaml` tree.  The source annotates every loaded
  document as `Dict[str, Any]`, so a loaded artifact carries an optional
  top-level mapping `List (String × Yaml)` (`none` models a parse failure,
  which `_load_yaml` reports by returning `None`).  Floating-point scalars are
  not modelled: no analysed code path and no claim depends on them.
* Python operations that can raise are modelled in `Except PyErr`; an
  `Except.error` value models an exception propagating out of the function,
  which in the script aborts the whole run (there are no try/except blocks
  around the analysis code).
* Python `set` iteration order is unspecified; the embedding determinises it
  as first-occurrence (insertion) order.  Every theorem below is either
  order-robust or explicitly about the embedded determinisation.
* Python `dict` preserves insertion order, which the embedding mirrors with
  association lists.  Top-level mappings are assumed to have distinct keys
  (YAML mappings parsed by `yaml.safe_load` cannot produce duplicate keys in
  one `dict`); lookups take the first matching key.
-/

/-- Exceptions that the analysed code paths can raise. -/
inductive PyErr where
  | typeError
  | valueError
  | keyError
  | attributeError
deriving DecidableEq, Repr

/-- A parsed YAML value (Python object produced by `yaml.safe_load`).
Floats are not modelled (no claim involves them). -/
inductive Yaml where
  | null
  | bool (b : Bool)
  | int (n : Int)
  | str (s : String)
  | seq (xs : List Yaml)
  | map (kvs : List (String × Yaml))

/-- Single-quote character, kept out of string literals. -/
def quoteCh : String := String.singleton (Char.ofNat 39)

/-- Opening brace character, kept out of string literals. -/
def obr : String := String.singleton (Char.ofNat 123)

/-- Closing brace character, kept out of string literals. -/
def cbr : String := String.singleton (Char.ofNat 125)

/-- `p.isPrefixOf s` on the character lists: Python `s.startswith(p)`. -/
def strStartsWith (s p : String) : Bool := p.toList.isPrefixOf s.toList

/-- Substring search over character lists. -/
def charsContain (p : List Char) : List Char → Bool
  | [] => p.isEmpty
  | c :: rest => p.isPrefixOf (c :: rest) || charsContain p rest

/-- Python `p in s` (substring containment). -/
def strContains (s p : String) : Bool := charsContain p.toList s.toList

mutual

/-- Python `==` on parsed YAML values.  Mirrors CPython semantics on the
values the analysed code compares: `True == 1` and `False == 0` hold because
`bool` is a subclass of `int`; values of different types are otherwise
unequal; lists and dicts compare elementwise.  (Dict comparison in CPython is
key-set based rather than order based; in the analysed code container values
are only ever compared against strings, where both agree on `false`.) -/
def pyEq : Yaml → Yaml → Bool
  | .null, .null => true
  | .bool a, .bool b => a == b
  | .bool a, .int n => (if a then (1 : Int) else 0) == n
  | .int n, .bool a => n == (if a then (1 : Int) else 0)
  | .int a, .int b => a == b
  | .str a, .str b => a == b
  | .seq a, .seq b => pyEqList a b
  | .map a, .map b => pyEqKvs a b
  | _, _ => false

/-- Elementwise Python `==` on lists. -/
def pyEqList : List Yaml → List Yaml → Bool
  | [], [] => true
  | a :: as_, b :: bs => pyEq a b && pyEqList as_ bs
  | _, _ => false

/-- Entrywise Python `==` on dict entries. -/
def pyEqKvs : List (String × Yaml) → List (String × Yaml) → Bool
  | [], [] => true
  | a :: as_, b :: bs => a.1 == b.1 && pyEq a.2 b.2 && pyEqKvs as_ bs
  | _, _ => false

end

/-- Whether a Python value is hashable (usable as a set element):
scalars are, lists and dicts are not. -/
def hashableY : Yaml → Bool
  | .seq _ => false
  | .map _ => false
  | _ => true

/-- Python `x in s` for a set `s` modelled as a deduplicated list. -/
def memPyEq (x : Yaml) (s : List Yaml) : Bool := s.any (fun y => pyEq x y)

/-- Python `s.add(x)`: raises `TypeError` on unhashable `x`, otherwise adds
`x` unless an equal element is present. -/
def pySetAdd (s : List Yaml) (x : Yaml) : Except PyErr (List Yaml) :=
  if hashableY x then
    .ok (if memPyEq x s then s else s ++ [x])
  else
    .error .typeError

/-- Python `s.update(xs)` for a set: adds each element in order, raising on
the first unhashable one. -/
def pySetUpdate (s : List Yaml) : List Yaml → Except PyErr (List Yaml)
  | [] => .ok s
  | x :: xs =>
    match pySetAdd s x with
    | .error e => .error e
    | .ok s2 => pySetUpdate s2 xs

/-- Auxiliary accumulator for `dedupStr`. -/
def dedupStrAux : List String → List String → List String
  | [], acc => acc.reverse
  | x :: xs, acc => if x ∈ acc then dedupStrAux xs acc else dedupStrAux xs (x :: acc)

/-- Python `set(xs)` for string elements (always hashable), determinised to
first-occurrence order. -/
def dedupStr (l : List String) : List String := dedupStrAux l []

/-- Python dict membership `k in d` for a string key. -/
def mapHasKey (k : String) (kvs : List (String × Yaml)) : Bool :=
  kvs.any (fun kv => kv.1 == k)

/-- Lookup of a string key in a dict (first occurrence). -/
def mapGet (kvs : List (String × Yaml)) (k : String) : Option Yaml :=
  (kvs.find? (fun kv => kv.1 == k)).map (·.2)

/-- Python `d[k]` on a parsed value: dict lookup with `KeyError` on a missing
key; any non-dict value raises `TypeError` when subscripted with a string
(list indices must be integers, strings are not subscriptable by `str`, ...). -/
def pyGetItemStr (v : Yaml) (k : String) : Except PyErr Yaml :=
  match v with
  | .map kvs =>
    match mapGet kvs k with
    | some x => .ok x
    | none => .error .keyError
  | _ => .error .typeError

/-- Python `k in v` for a string `k` and an arbitrary value `v`:
dict → key membership, list → elementwise `==`, str → substring,
other scalars → `TypeError` (argument not iterable). -/
def pyInStr (k : String) (v : Yaml) : Except PyErr Bool :=
  match v with
  | .map kvs => .ok (mapHasKey k kvs)
  | .seq xs => .ok (memPyEq (.str k) xs)
  | .str s => .ok (strContains s k)
  | _ => .error .typeError

/-- Python `for x in v`: dict iterates its keys (as strings), list its
elements, str its characters; scalars raise `TypeError`. -/
def pyIterList (v : Yaml) : Except PyErr (List Yaml) :=
  match v with
  | .map kvs => .ok (kvs.map (fun kv => .str kv.1))
  | .seq xs => .ok xs
  | .str s => .ok (s.toList.map (fun c => .str (String.singleton c)))
  | _ => .error .typeError

/-- Python `v.get(k)` (dict method, default `None`); non-dict values raise
`AttributeError` (`no attribute get`). -/
def pyGetAttrGet (v : Yaml) (k : String) : Except PyErr Yaml :=
  match v with
  | .map kvs => .ok ((mapGet kvs k).getD .null)
  | _ => .error .attributeError

/-- Python `v.items()`; non-dict values raise `AttributeError`. -/
def pyItems (v : Yaml) : Except PyErr (List (String × Yaml)) :=
  match v with
  | .map kvs => .ok kvs
  | _ => .error .attributeError

/-- Python `str(v)` for the scalar values that reach f-strings in the
analysed code. -/
def pyStr : Yaml → String
  | .null => "None"
  | .bool true => "True"
  | .bool false => "False"
  | .int n => toString n
  | .str s => s
  | .seq _ => "[...]"
  | .map _ => obr ++ "..." ++ cbr

/-- `Except`-valued map over a list, evaluated left to right with
short-circuiting, as a Python `for` loop or comprehension evaluates. -/
def eMapM {α β : Type} (f : α → Except PyErr β) : List α → Except PyErr (List β)
  | [] => .ok []
  | x :: xs =>
    match f x with
    | .error e => .error e
    | .ok y =>
      match eMapM f xs with
      | .error e => .error e
      | .ok ys => .ok (y :: ys)

/-- Hex digit character (lowercase), for JSON `\u00XX` escapes. -/
def hexDigitCh (n : Nat) : Char :=
  if n < 10 then Char.ofNat (48 + n) else Char.ofNat (87 + n)

/-- Escaping of one character by `json.dumps` (with `ensure_ascii=False`):
quote, backslash and ASCII control characters are escaped, everything else
passes through unchanged. -/
def jsonEscapeChar (c : Char) : List Char :=
  if c = '"' then ['\\', '"']
  else if c = '\\' then ['\\', '\\']
  else if c = '\n' then ['\\', 'n']
  else if c = '\t' then ['\\', 't']
  else if c = '\r' then ['\\', 'r']
  else if c = Char.ofNat 8 then ['\\', 'b']
  else if c = Char.ofNat 12 then ['\\', 'f']
  else if c.toNat < 32 then
    ['\\', 'u', '0', '0', hexDigitCh (c.toNat / 16), hexDigitCh (c.toNat % 16)]
  else [c]

/-- JSON escaping of a whole string body. -/
def jsonEscapeStr (l : List Char) : List Char := (l.map jsonEscapeChar).flatten

/-- A `takeWhile` prefix is no longer than the list. -/
theorem takeWhile_length_le {α : Type} (p : α → Bool) (l : List α) :
    (l.takeWhile p).length ≤ l.length := by
  induction l with
  | nil => simp [List.takeWhile]
  | cons c rest ih =>
    simp only [List.takeWhile]
    cases p c <;> simp <;> omega

mutual

/-- `json.dumps(v, ensure_ascii=False)` with the default separators
`", "` and `": "`, as used by `_extract_urns` / `_extract_file_references`. -/
def jsonDumpsY : Yaml → List Char
  | .null => "null".toList
  | .bool true => "true".toList
  | .bool false => "false".toList
  | .int n => (toString n).toList
  | .str s => '"' :: (jsonEscapeStr s.toList ++ ['"'])
  | .seq xs => '[' :: (jsonDumpsList xs ++ [']'])
  | .map kvs => Char.ofNat 123 :: (jsonDumpsKvs kvs ++ [Char.ofNat 125])

/-- Comma-separated serialization of list elements. -/
def jsonDumpsList : List Yaml → List Char
  | [] => []
  | [x] => jsonDumpsY x
  | x :: xs => jsonDumpsY x ++ (", ".toList ++ jsonDumpsList xs)

/-- Comma-separated serialization of dict entries. -/
def jsonDumpsKvs : List (String × Yaml) → List Char
  | [] => []
  | [kv] => '"' :: (jsonEscapeStr kv.1.toList ++ ['"'] ++ ": ".toList ++ jsonDumpsY kv.2)
  | kv :: kvs =>
    '"' :: (jsonEscapeStr kv.1.toList ++ ['"'] ++ ": ".toList ++ jsonDumpsY kv.2
      ++ ", ".toList ++ jsonDumpsKvs kvs)

end

/-- Python regex `\w` for the character data the validator serializes.
CPython's `\w` additionally matches non-ASCII word characters; the claims
and scenarios only involve ASCII, and the embedding restricts `\w` to ASCII
alphanumerics plus underscore. -/
def isWordChar (c : Char) : Bool := c.isAlphanum || c == '_'

/-- Character class `[:\w\-.]` of the URN pattern. -/
def isUrnChar (c : Char) : Bool := c == ':' || isWordChar c || c == '-' || c == '.'

/-- Character class `[\w\-./]` of the file-reference patterns. -/
def isFileChar (c : Char) : Bool := isWordChar c || c == '-' || c == '.' || c == '/'

/-- Fuel-stepped scanner for `re.findall(r'urn:[:\w\-.]+', s)`: leftmost,
non-overlapping matches, each consisting of the literal "urn:" followed by a
maximal non-empty run of URN characters.  The fuel argument only bounds the
recursion (every step consumes at least one character); `findUrnTokens`
supplies more fuel than the input length, so the exhaustion branch is
unreachable.  Structural recursion on the fuel keeps the function
kernel-reducible. -/
def findUrnTokensF : Nat → List Char → List String
  | 0, _ => []
  | fuel + 1, cs =>
    match cs with
    | 'u' :: 'r' :: 'n' :: ':' :: rest =>
      if (rest.takeWhile isUrnChar).isEmpty then
        findUrnTokensF fuel ('r' :: 'n' :: ':' :: rest)
      else
        ("urn:" ++ String.mk (rest.takeWhile isUrnChar)) ::
          findUrnTokensF fuel (rest.drop (rest.takeWhile isUrnChar).length)
    | _ :: rest => findUrnTokensF fuel rest
    | [] => []

/-- `re.findall(r'urn:[:\w\-.]+', s)`. -/
def findUrnTokens (cs : List Char) : List String := findUrnTokensF (cs.length + 1) cs

/-- Alternatives `(yaml|yml|md|py|sh)` in their declaration order. -/
def extAlts : List (List Char) := ["yaml".toList, "yml".toList, "md".toList, "py".toList, "sh".toList]

/-- First alternative that matches at the start of `cs` (regex alternation
tries the branches left to right). -/
def altAt (cs : List Char) : Option (List Char) :=
  extAlts.find? (fun a => a.isPrefixOf cs)

/-- Try the dot position `m` inside a class run: demand a literal `.` at `m`
followed by a matching extension alternative. -/
def tryDot (run : List Char) (m : Nat) : Option (Nat × List Char) :=
  if run.get? m = some '.' then (altAt (run.drop (m + 1))).map (fun e => (m, e))
  else none

/-- Scan candidate dot positions from `m` downwards (the regex engine's
greedy `[\w\-./]+` backtracks from the longest extent, so the latest viable
dot wins). Position `0` is excluded: the class run before the dot must be
non-empty. -/
def bestDotAux (run : List Char) : Nat → Option (Nat × List Char)
  | 0 => none
  | m + 1 =>
    match tryDot run (m + 1) with
    | some r => some r
    | none => bestDotAux run m

/-- Best (latest) dot-plus-extension split of a class run. -/
def bestDot (run : List Char) : Option (Nat × List Char) :=
  bestDotAux run (run.length - 1)

/-- Fuel-stepped scanner for `re.findall(r'[\w\-./]+\.(yaml|yml|md|py|sh)', s)`.
The pattern has one group, so `findall` returns the *extension* of each
match, not the whole match — the validator really collects tokens like
"yaml" and "md".  As with `findUrnTokensF`, the fuel only bounds the
recursion and never runs out at the wrapper's call. -/
def findExtTokensF : Nat → List Char → List String
  | 0, _ => []
  | fuel + 1, cs =>
    match cs with
    | [] => []
    | c :: rest =>
      if isFileChar c then
        match bestDot (c :: rest.takeWhile isFileChar) with
        | some me => String.mk me.2 :: findExtTokensF fuel ((c :: rest).drop (me.1 + 1 + me.2.length))
        | none => findExtTokensF fuel (rest.drop (rest.takeWhile isFileChar).length)
      else
        findExtTokensF fuel rest

/-- `re.findall(r'[\w\-./]+\.(yaml|yml|md|py|sh)', s)`. -/
def findExtTokens (cs : List Char) : List String := findExtTokensF (cs.length + 1) cs

/-- Fuel-stepped scanner for `re.findall(r'<lit>[\w\-./]+', s)` for a
literal prefix `lit` (`controlplane/` and `workspace/`): a literal
occurrence followed by a maximal non-empty class run.  The fuel only bounds
the recursion and never runs out at the wrapper's call. -/
def findPrefixTokensF (lit : List Char) : Nat → List Char → List String
  | 0, _ => []
  | fuel + 1, cs =>
    match cs with
    | [] => []
    | c :: rest =>
      if lit.isPrefixOf (c :: rest) then
        if (((c :: rest).drop lit.length).takeWhile isFileChar).isEmpty then
          findPrefixTokensF lit fuel rest
        else
          String.mk (lit ++ ((c :: rest).drop lit.length).takeWhile isFileChar) ::
            findPrefixTokensF lit fuel
              (((c :: rest).drop lit.length).drop
                (((c :: rest).drop lit.length).takeWhile isFileChar).length)
      else
        findPrefixTokensF lit fuel rest

/-- `re.findall(r'<lit>[\w\-./]+', s)`. -/
def findPrefixTokens (lit : List Char) (cs : List Char) : List String :=
  findPrefixTokensF lit (cs.length + 1) cs


/-- Escape for Python single-quoted `repr` of a string: backslash and the
single quote are escaped.  (CPython switches to double quotes when the string
contains a single quote but no double quote, and escapes control characters;
the embedding always single-quotes.  The repr only feeds the free-text
`suggestion` of the version-consistency issue, which no claim inspects.) -/
def pyReprEscapeChar (c : Char) : List Char :=
  if c = Char.ofNat 39 then ['\\', Char.ofNat 39]
  else if c = '\\' then ['\\', '\\']
  else [c]

/-- Python `repr` of a string (see `pyReprEscapeChar` for the caveat). -/
def pyReprStr (s : String) : List Char :=
  Char.ofNat 39 :: ((s.toList.map pyReprEscapeChar).flatten ++ [Char.ofNat 39])

mutual

/-- Python `repr` of a parsed YAML value, used when a dict is interpolated
into an f-string. -/
def pyReprY : Yaml → List Char
  | .null => "None".toList
  | .bool true => "True".toList
  | .bool false => "False".toList
  | .int n => (toString n).toList
  | .str s => pyReprStr s
  | .seq xs => '[' :: (pyReprList xs ++ [']'])
  | .map kvs => Char.ofNat 123 :: (pyReprKvs kvs ++ [Char.ofNat 125])

/-- Comma-separated `repr` of list elements. -/
def pyReprList : List Yaml → List Char
  | [] => []
  | [x] => pyReprY x
  | x :: xs => pyReprY x ++ (", ".toList ++ pyReprList xs)

/-- Comma-separated `repr` of dict entries. -/
def pyReprKvs : List (String × Yaml) → List Char
  | [] => []
  | [kv] => pyReprStr kv.1 ++ (": ".toList ++ pyReprY kv.2)
  | kv :: kvs => pyReprStr kv.1 ++ (": ".toList ++ pyReprY kv.2 ++ ", ".toList ++ pyReprKvs kvs)

end

/-- `repr` of the `versions` dict (filename → declared version). -/
def pyReprVersions (versions : List (String × Yaml)) : String :=
  String.mk (Char.ofNat 123 :: (pyReprKvs versions ++ [Char.ofNat 125]))

/-- One finding, mirroring the `ValidationIssue` dataclass field for field.
`line_number` is `None` at every construction site in the source. -/
structure ValidationIssue where
  severity : String
  category : String
  file_path : String
  line_number : Option Nat
  message : String
  suggestion : Option String
  auto_fixable : Bool
  related_files : List String
deriving DecidableEq, Repr

/-- Per-artifact metrics, mirroring the `FileMetrics` dataclass.  The
`size_kb` field (a floating-point display value no claim references) is not
modelled. -/
structure FileMetrics where
  file_path : String
  file_type : String
  entity_count : Nat
  reference_count : Nat
  dependency_count : Nat
  complexity_score : Int
  quality_score : Int
deriving DecidableEq, Repr

/-- One file of the workspace as the validator sees it: its filename and the
result of `_load_yaml` (`none` = unparseable, `some kvs` = the parsed
top-level mapping; an empty file parses to `{}` via the `or {}` fallback). -/
structure Artifact where
  name : String
  content : Option (List (String × Yaml))

/-- The filesystem state one validation run reads: the directory listings of
the three scanned roots (each file already paired with its parse result) and
the set of workspace-relative paths that exist (consulted by the
file-reference check).  Directory listing order stands in for the
OS-dependent `glob` enumeration order. -/
structure Workspace where
  configDir : List Artifact
  specsDir : List Artifact
  registryDir : List Artifact
  existingPaths : List String

/-- Python `s.endswith(p)`. -/
def strEndsWith (s p : String) : Bool := p.toList.reverse.isPrefixOf s.toList.reverse

/-- `fnmatch`-style match of `pre*suf` (the only glob shape the validator
uses): literal prefix, literal suffix, and enough length that they do not
overlap; `*` matches any (possibly empty) character sequence. -/
def globMatch (pre suf name : String) : Bool :=
  strStartsWith name pre && strEndsWith name suf &&
    pre.toList.length + suf.toList.length ≤ name.toList.length

/-- `config_root.glob("root.*.yaml")`. -/
def configGlob (ws : Workspace) : List Artifact :=
  ws.configDir.filter (fun a => globMatch "root." ".yaml" a.name)

/-- `specs_root.glob("root.specs.*.yaml")`. -/
def specsGlob (ws : Workspace) : List Artifact :=
  ws.specsDir.filter (fun a => globMatch "root.specs." ".yaml" a.name)

/-- `registry_root.glob("root.registry.*.yaml")`. -/
def registryGlob (ws : Workspace) : List Artifact :=
  ws.registryDir.filter (fun a => globMatch "root.registry." ".yaml" a.name)

/-- Python truthiness of a loaded document (`if content:`): parse failures
(`None`) and empty mappings are falsy. -/
def truthy (a : Artifact) : Bool :=
  match a.content with
  | some (_ :: _) => true
  | _ => false

/-- The parsed mapping of an artifact (meaningful when `truthy`). -/
def kvsOf (a : Artifact) : List (String × Yaml) := a.content.getD []

/-- Workspace-relative path of a config-root file. -/
def relConfig (n : String) : String := "controlplane/baseline/config/" ++ n

/-- Workspace-relative path of a specifications-root file. -/
def relSpecs (n : String) : String := "controlplane/baseline/specifications/" ++ n

/-- Workspace-relative path of a registries-root file. -/
def relRegistry (n : String) : String := "controlplane/baseline/registries/" ++ n

/-- `_determine_file_type`.  Note the Python operator precedence in the first
condition: `"config" in filename or (filename.startswith("root.") and not
any(marker in filename))` — a name containing "config" is classified
`config` before the marker tests are ever reached. -/
def determineFileType (filename : String) : String :=
  if strContains filename "config" ||
      (strStartsWith filename "root." &&
        !(strContains filename "specs." || strContains filename "registry." ||
          strContains filename "gates.")) then
    "config"
  else if strContains filename "specs." then "spec"
  else if strContains filename "registry." then "registry"
  else if strContains filename "gates." then "gates"
  else "other"

/-- `_validate_field_type`: runtime-shape check against a primitive name.
`bool` is a subclass of `int` in Python, so booleans pass the `number`
check; floats are not modelled (see the header).  An unknown type name makes
`type_map.get` return `None`, and `None and isinstance(...)` is falsy. -/
def validateFieldType (v : Yaml) (t : String) : Bool :=
  if t == "string" then (match v with | .str _ => true | _ => false)
  else if t == "number" then (match v with | .int _ => true | .bool _ => true | _ => false)
  else if t == "boolean" then (match v with | .bool _ => true | _ => false)
  else if t == "array" then (match v with | .seq _ => true | _ => false)
  else if t == "object" then (match v with | .map _ => true | _ => false)
  else false

/-- `_load_validation_schemas`: required-field list per artifact type. -/
def schemaRequired (t : String) : List String :=
  if t == "config" then ["version"]
  else if t == "spec" then ["version", "rules"]
  else if t == "registry" then ["version", "entries"]
  else []

/-- `_load_validation_schemas`: field → expected-type table per artifact
type, in dict insertion order. -/
def schemaFields (t : String) : List (String × String) :=
  if t == "config" then [("version", "string"), ("created", "string"), ("updated", "string")]
  else if t == "spec" then [("version", "string"), ("rules", "array")]
  else if t == "registry" then [("version", "string"), ("entries", "array")]
  else []

/-- The critical issue for an unparseable targeted file. -/
def unparseableIssue (name : String) : ValidationIssue :=
  ⟨"critical", "schema", relConfig name, none, "无法解析YAML文件",
    some "检查YAML语法和文件编码", false, []⟩

/-- The high-severity issue for a missing required field. -/
def missingFieldIssue (name field : String) : ValidationIssue :=
  ⟨"high", "schema", relConfig name, none, "缺少必需字段: " ++ field,
    some ("添加字段: " ++ field ++ ": <value>"), true, []⟩

/-- The medium-severity issue for a mistyped field. -/
def typeMismatchIssue (name field expected : String) : ValidationIssue :=
  ⟨"medium", "schema", relConfig name, none,
    "字段类型不匹配: " ++ field ++ " 应为 " ++ expected,
    some ("将 " ++ field ++ " 的值转换为 " ++ expected ++ " 类型"), false, []⟩

/-- `validate_schema_compliance`: for every `root.*.yaml` under the config
root whose classified type has a schema, report an unparseable file, then
missing required fields (schema order), then mistyped present fields
(schema order). -/
def validateSchemaCompliance (ws : Workspace) : List ValidationIssue :=
  (configGlob ws).flatMap (fun a =>
    let t := determineFileType a.name
    if t == "config" || t == "spec" || t == "registry" then
      match a.content with
      | none => [unparseableIssue a.name]
      | some kvs =>
        ((schemaRequired t).filterMap (fun rf =>
          if mapHasKey rf kvs then none else some (missingFieldIssue a.name rf))) ++
        ((schemaFields t).filterMap (fun ft =>
          match mapGet kvs ft.1 with
          | none => none
          | some v => if validateFieldType v ft.2 then none else some (typeMismatchIssue a.name ft.1 ft.2)))
    else [])

/-- The `(file_name, version)` pairs collected by the consistency checker:
every truthy config-root artifact that has a `version` key, in glob order
(dict insertion order of `versions`). -/
def versionsOf (ws : Workspace) : List (String × Yaml) :=
  ((configGlob ws).filter truthy).filterMap (fun a =>
    (mapGet (kvsOf a) "version").map (fun v => (a.name, v)))

/-- The single cross-file version-inconsistency issue. -/
def versionIssue (versions : List (String × Yaml)) : ValidationIssue :=
  ⟨"medium", "consistency", "multiple", none, "发现版本不一致",
    some ("统一所有配置文件的版本号，当前版本: " ++ pyReprVersions versions), true,
    versions.map (·.1)⟩

/-- `validate_cross_file_consistency`.  The version check emits one issue
when `len(set(versions.values())) > 1`; building that set raises `TypeError`
if any declared version value is unhashable (a list or dict).  The timestamp
block only collects values and emits nothing.  The naming-pattern check is
unreachable: it is guarded by `"naming" in naming_patterns`, but the keys of
`naming_patterns` are filenames matching `root.specs.*.yaml`, never the
literal `"naming"` (see `naming_branch_dead`), so it is modelled as emitting
no issues (its body would need arbitrary-regex matching). -/
def validateCrossFileConsistency (ws : Workspace) : Except PyErr (List ValidationIssue) :=
  let versions := versionsOf ws
  match pySetUpdate [] (versions.map (·.2)) with
  | .error e => .error e
  | .ok distinct =>
    .ok (if 1 < distinct.length then [versionIssue versions] else [])

/-- The keys of the `naming_patterns` dict: names of truthy
`root.specs.*.yaml` artifacts whose content has a `patterns` key. -/
def namingPatternKeys (ws : Workspace) : List String :=
  (((specsGlob ws).filter truthy).filter (fun a => mapHasKey "patterns" (kvsOf a))).map (·.name)

/-- The naming-check branch of the consistency checker never fires: its
guard `"naming" in naming_patterns` tests dict keys that are always
glob-selected filenames starting with `root.specs.`. -/
theorem naming_branch_dead (ws : Workspace) : "naming" ∉ namingPatternKeys ws := by
  intro hmem
  simp only [namingPatternKeys, List.mem_map, List.mem_filter, specsGlob] at hmem
  obtain ⟨a, ⟨⟨⟨_, hglob⟩, _⟩, _⟩, hname⟩ := hmem
  rw [hname] at hglob
  simp [globMatch, strStartsWith, strEndsWith] at hglob

/-- `_extract_urns`: URN-shaped tokens found in the `json.dumps`
serialization of the content, as a set (first-occurrence order). -/
def extractUrns (kvs : List (String × Yaml)) : List String :=
  dedupStr (findUrnTokens (jsonDumpsY (.map kvs)))

/-- `_extract_file_references`: union of the three pattern scans over the
serialized content.  The first pattern contains a group, so `re.findall`
yields only the matched extension. -/
def extractFileReferences (kvs : List (String × Yaml)) : List String :=
  dedupStr (findExtTokens (jsonDumpsY (.map kvs)) ++
    findPrefixTokens "controlplane/".toList (jsonDumpsY (.map kvs)) ++
    findPrefixTokens "workspace/".toList (jsonDumpsY (.map kvs)))

/-- One step of the authority-set loop: `if "urn" in entry:
available_urns.add(entry["urn"])`. -/
def urnAddOfEntry (acc : List Yaml) (entry : Yaml) : Except PyErr (List Yaml) :=
  match pyInStr "urn" entry with
  | .error e => .error e
  | .ok b =>
    if b then
      match pyGetItemStr entry "urn" with
      | .error e => .error e
      | .ok v => pySetAdd acc v
    else .ok acc

/-- Fold `urnAddOfEntry` over the entries of one registry file. -/
def urnAddOfEntries (acc : List Yaml) : List Yaml → Except PyErr (List Yaml)
  | [] => .ok acc
  | e :: es =>
    match urnAddOfEntry acc e with
    | .error err => .error err
    | .ok acc2 => urnAddOfEntries acc2 es

/-- The authority-collection loop of `validate_reference_integrity` over the
registry glob: for every truthy registry document with an `entries` key,
iterate `content["entries"]` and collect declared URNs. -/
def availableUrnsAux (acc : List Yaml) : List Artifact → Except PyErr (List Yaml)
  | [] => .ok acc
  | a :: rest =>
    if truthy a && mapHasKey "entries" (kvsOf a) then
      match pyIterList ((mapGet (kvsOf a) "entries").getD .null) with
      | .error e => .error e
      | .ok entries =>
        match urnAddOfEntries acc entries with
        | .error e => .error e
        | .ok acc2 => availableUrnsAux acc2 rest
    else availableUrnsAux acc rest

/-- `available_urns` as collected at the start of
`validate_reference_integrity`. -/
def availableUrnsE (ws : Workspace) : Except PyErr (List Yaml) :=
  availableUrnsAux [] (registryGlob ws)

/-- One comparison of `_find_registry_files_for_urn`:
`entry.get("urn") == urn`. -/
def entryGetUrnEq (t : String) (entry : Yaml) : Except PyErr Bool :=
  match pyGetAttrGet entry "urn" with
  | .error e => .error e
  | .ok v => .ok (pyEq v (.str t))

/-- Scan one registry file's entries for a matching `urn` value,
stopping at the first hit (the source `break`s), so later entries are not
examined once a match is found. -/
def findHitInEntries (t : String) : List Yaml → Except PyErr Bool
  | [] => .ok false
  | e :: es =>
    match entryGetUrnEq t e with
    | .error err => .error err
    | .ok b => if b then .ok true else findHitInEntries t es

/-- `_find_registry_files_for_urn` over a list of registry artifacts. -/
def findRegistryFilesAux (t : String) : List Artifact → Except PyErr (List String)
  | [] => .ok []
  | a :: rest =>
    if truthy a && mapHasKey "entries" (kvsOf a) then
      match pyIterList ((mapGet (kvsOf a) "entries").getD .null) with
      | .error e => .error e
      | .ok entries =>
        match findHitInEntries t entries with
        | .error e => .error e
        | .ok hit =>
          match findRegistryFilesAux t rest with
          | .error e => .error e
          | .ok files => .ok (if hit then relRegistry a.name :: files else files)
    else findRegistryFilesAux t rest

/-- `_find_registry_files_for_urn`. -/
def findRegistryFilesForUrn (ws : Workspace) (t : String) : Except PyErr (List String) :=
  findRegistryFilesAux t (registryGlob ws)

/-- The high-severity unresolved-URN issue. -/
def urnIssue (name t : String) (rel : List String) : ValidationIssue :=
  ⟨"high", "reference", relConfig name, none, "引用的URN不存在: " ++ t,
    some "在相应的注册表中创建URN条目或检查引用是否正确", false, rel⟩

/-- The unresolved-URN issues of one truthy config artifact: one per
extracted token missing from the authority set. -/
def urnIssuesForConfig (ws : Workspace) (urns : List Yaml) (a : Artifact) :
    Except PyErr (List ValidationIssue) :=
  eMapM (fun t =>
      match findRegistryFilesForUrn ws t with
      | .error e => .error e
      | .ok rel => .ok (urnIssue a.name t rel))
    ((extractUrns (kvsOf a)).filter (fun t => !(memPyEq (.str t) urns)))

/-- The medium-severity missing-file-reference issue. -/
def fileRefIssue (name ref : String) : ValidationIssue :=
  ⟨"medium", "reference", relConfig name, none, "引用的文件不存在: " ++ ref,
    some ("创建文件 " ++ ref ++ " 或修复引用路径"), false, [ref]⟩

/-- The file-reference issues of one truthy config artifact: one per
extracted token whose workspace-relative path does not exist. -/
def fileRefIssuesForConfig (ws : Workspace) (a : Artifact) : List ValidationIssue :=
  (extractFileReferences (kvsOf a)).filterMap (fun r =>
    if r ∈ ws.existingPaths then none else some (fileRefIssue a.name r))

/-- `validate_reference_integrity`: the URN loop over every truthy config
artifact, then the file-reference loop over the same artifacts. -/
def validateReferenceIntegrity (ws : Workspace) : Except PyErr (List ValidationIssue) :=
  match availableUrnsE ws with
  | .error e => .error e
  | .ok urns =>
    match eMapM (urnIssuesForConfig ws urns) ((configGlob ws).filter truthy) with
    | .error e => .error e
    | .ok parts =>
      .ok (parts.flatten ++
        ((configGlob ws).filter truthy).flatMap (fileRefIssuesForConfig ws))

/-- `_extract_dependencies`: the `depends_on` field (list or string) and the
`imports` field (list), accumulated into one set; putting an unhashable
element into the set raises `TypeError`. -/
def extractDependencies (kvs : List (String × Yaml)) : Except PyErr (List Yaml) :=
  match
    (if mapHasKey "depends_on" kvs then
      match (mapGet kvs "depends_on").getD .null with
      | .seq l => pySetUpdate [] l
      | .str s => pySetAdd [] (.str s)
      | _ => .ok []
    else .ok []) with
  | .error e => .error e
  | .ok acc =>
    if mapHasKey "imports" kvs then
      match (mapGet kvs "imports").getD .null with
      | .seq l => pySetUpdate acc l
      | _ => .ok acc
    else .ok acc

/-- The node set of the dependency graph: all artifact filenames across the
three globs (`all_files`, a set, determinised to first-occurrence order). -/
def allFilesList (ws : Workspace) : List String :=
  dedupStr ((configGlob ws).map (·.name) ++ (specsGlob ws).map (·.name) ++
    (registryGlob ws).map (·.name))

/-- `dependency_graph[file_name].add(dep)`: association-list update that
appends the edge target once. -/
def graphAddEdge (g : List (String × List String)) (n d : String) :
    List (String × List String) :=
  match g with
  | [] => [(n, [d])]
  | kv :: rest =>
    if kv.1 == n then (kv.1, if d ∈ kv.2 then kv.2 else kv.2 ++ [d]) :: rest
    else kv :: graphAddEdge rest n d

/-- The inner edge loop: `for dep in dependencies: if dep in all_files:
dependency_graph[file_name].add(dep)`.  Only string values can equal a
filename. -/
def graphAddDeps (allF : List String) (g : List (String × List String)) (n : String) :
    List Yaml → List (String × List String)
  | [] => g
  | dep :: deps =>
    match dep with
    | .str s =>
      if s ∈ allF then graphAddDeps allF (graphAddEdge g n s) n deps
      else graphAddDeps allF g n deps
    | _ => graphAddDeps allF g n deps

/-- The graph-construction loop over `config_files + spec_files +
registry_files` (list concatenation, not deduplicated). -/
def buildGraphAux (allF : List String) (g : List (String × List String)) :
    List Artifact → Except PyErr (List (String × List String))
  | [] => .ok g
  | a :: rest =>
    if truthy a then
      match extractDependencies (kvsOf a) with
      | .error e => .error e
      | .ok deps => buildGraphAux allF (graphAddDeps allF g a.name deps) rest
    else buildGraphAux allF g rest

/-- The declared dependency graph restricted to known nodes. -/
def buildGraphE (ws : Workspace) : Except PyErr (List (String × List String)) :=
  buildGraphAux (allFilesList ws) [] (configGlob ws ++ specsGlob ws ++ registryGlob ws)

/-- Neighbour set of a node (`dependency_graph[node]`; a `defaultdict`, so a
missing key reads as the empty set). -/
def nbrs (g : List (String × List String)) (n : String) : List String :=
  ((g.find? (fun kv => kv.1 == n)).map (·.2)).getD []

/-- The mutable DFS state of `has_cycle`: the `visited` and `rec_stack`
sets. -/
structure DfsSt where
  visited : List String
  recStack : List String

/-- The neighbour loop of `has_cycle`, parametrized by the recursive visit
(`dfsVisit` at one fuel step less): recurse into unvisited neighbours,
report a cycle on a neighbour found in `rec_stack`, and short-circuit on the
first `True`. -/
def dfsNbrs (visit : String → DfsSt → Bool × DfsSt) : List String → DfsSt → Bool × DfsSt
  | [], st => (false, st)
  | nb :: rest, st =>
    if nb ∈ st.visited then
      if nb ∈ st.recStack then (true, st)
      else dfsNbrs visit rest st
    else
      match visit nb st with
      | (true, st2) => (true, st2)
      | (false, st2) => dfsNbrs visit rest st2

/-- `has_cycle(node)`: mark the node visited and in-progress, scan its
neighbours, and pop it from `rec_stack` only on the `False` path (the source
`return True` leaves `rec_stack` as is).  The `Nat` argument is recursion
fuel, a Lean artifact kept structural so the function reduces in the
kernel: the validator calls this with fuel `|all_files| + 1`, and every
nested call is on a freshly visited node of `all_files`, so the fuel can
never run out there (the soundness lemmas below track this invariant
explicitly; the exhaustion branch is unreachable at the embedding's call
sites). -/
def dfsVisit (g : String → List String) : Nat → String → DfsSt → Bool × DfsSt
  | 0, _, st => (true, st)
  | k + 1, n, st =>
    match dfsNbrs (dfsVisit g k) (g n) ⟨st.visited.insert n, st.recStack.insert n⟩ with
    | (true, st2) => (true, st2)
    | (false, st2) => (false, ⟨st2.visited, st2.recStack.erase n⟩)

/-- The high-severity circular-dependency issue for the outer node at which
the DFS reported a cycle; the related files are the node's direct
dependencies. -/
def cycleIssue (g : String → List String) (n : String) : ValidationIssue :=
  ⟨"high", "dependency", n, none, "检测到循环依赖，涉及文件: " ++ n,
    some "重构依赖关系以消除循环", false, g n⟩

/-- The outer loop `for file_name in all_files: if file_name not in visited:
if has_cycle(file_name): issues.append(...)`, threading the mutable DFS
state. -/
def cycleOuter (g : String → List String) (fuel : Nat) :
    List String → DfsSt → List ValidationIssue
  | [], _ => []
  | n :: rest, st =>
    if n ∈ st.visited then cycleOuter g fuel rest st
    else
      match dfsVisit g fuel n st with
      | (true, st2) => cycleIssue g n :: cycleOuter g fuel rest st2
      | (false, st2) => cycleOuter g fuel rest st2

/-- The medium-severity missing-dependency issue. -/
def missingDepIssue (n d : String) : ValidationIssue :=
  ⟨"medium", "dependency", n, none, "依赖的文件不存在: " ++ d,
    some "创建缺失的文件或移除依赖", false, [d]⟩

/-- The missing-dependency loop over `dependency_graph.items()`.  (The
`defaultdict` also holds empty entries created by reads during the DFS;
they contribute no iterations, so the embedding folds over the entries with
explicitly added edges.)  Every stored edge target passed the
`dep in all_files` filter at construction, which makes this loop dead code
(`missing_dep_branch_dead` below). -/
def missingDepIssues (g : List (String × List String)) (allF : List String) :
    List ValidationIssue :=
  g.flatMap (fun kv =>
    kv.2.filterMap (fun d =>
      if d ∈ allF then none else some (missingDepIssue kv.1 d)))

/-- `validate_dependency_graph`: build the filtered graph, run the DFS from
every node, then run the (dead) missing-dependency loop. -/
def validateDependencyGraph (ws : Workspace) : Except PyErr (List ValidationIssue) :=
  match buildGraphE ws with
  | .error e => .error e
  | .ok g =>
    .ok (cycleOuter (nbrs g) ((allFilesList ws).length + 1) (allFilesList ws) ⟨[], []⟩ ++
      missingDepIssues g (allFilesList ws))

/-- Python `max(list)`: `ValueError` on an empty sequence. -/
def maxListE : List Nat → Except PyErr Nat
  | [] => .error .valueError
  | x :: xs => .ok (xs.foldl max x)

mutual

/-- `calculate_depth(obj, current_depth)`: mappings and sequences take the
`max` of their children at depth `+ 1` — `max([])` raises `ValueError` on an
empty mapping or sequence — and scalars return the current depth. -/
def calcDepth : Yaml → Nat → Except PyErr Nat
  | .map kvs, d =>
    match calcDepthKvs kvs d with
    | .error e => .error e
    | .ok ds => maxListE ds
  | .seq xs, d =>
    match calcDepthList xs d with
    | .error e => .error e
    | .ok ds => maxListE ds
  | _, d => .ok d

/-- Child depths of a sequence (children evaluated left to right). -/
def calcDepthList : List Yaml → Nat → Except PyErr (List Nat)
  | [], _ => .ok []
  | x :: xs, d =>
    match calcDepth x (d + 1) with
    | .error e => .error e
    | .ok dd =>
      match calcDepthList xs d with
      | .error e => .error e
      | .ok ds => .ok (dd :: ds)

/-- Child depths of a mapping's values. -/
def calcDepthKvs : List (String × Yaml) → Nat → Except PyErr (List Nat)
  | [], _ => .ok []
  | kv :: kvs, d =>
    match calcDepth kv.2 (d + 1) with
    | .error e => .error e
    | .ok dd =>
      match calcDepthKvs kvs d with
      | .error e => .error e
      | .ok ds => .ok (dd :: ds)

end

mutual

/-- `count_objects`: the number of mapping nodes anywhere in the tree. -/
def countObjects : Yaml → Nat
  | .map kvs => 1 + countObjectsKvs kvs
  | .seq xs => countObjectsList xs
  | _ => 0

/-- Object count over sequence elements. -/
def countObjectsList : List Yaml → Nat
  | [] => 0
  | x :: xs => countObjects x + countObjectsList xs

/-- Object count over mapping values. -/
def countObjectsKvs : List (String × Yaml) → Nat
  | [] => 0
  | kv :: kvs => countObjects kv.2 + countObjectsKvs kvs

end

mutual

/-- `count_array_items`: every sequence contributes its length, recursively. -/
def countArrayItems : Yaml → Nat
  | .seq xs => xs.length + countItemsList xs
  | .map kvs => countItemsKvs kvs
  | _ => 0

/-- Item count over sequence elements. -/
def countItemsList : List Yaml → Nat
  | [] => 0
  | x :: xs => countArrayItems x + countItemsList xs

/-- Item count over mapping values. -/
def countItemsKvs : List (String × Yaml) → Nat
  | [] => 0
  | kv :: kvs => countArrayItems kv.2 + countItemsKvs kvs

end

/-- `_calculate_complexity`: depth is computed first (the only failure
point), then `10×depth + 5×objects + 2×array items`, capped by
`min(complexity, 100)`. -/
def calcComplexity (kvs : List (String × Yaml)) : Except PyErr Int :=
  match calcDepth (.map kvs) 0 with
  | .error e => .error e
  | .ok depth =>
    .ok (min (10 * (depth : Int) + 5 * (countObjects (.map kvs) : Int) +
      2 * (countArrayItems (.map kvs) : Int)) 100)

/-- The test `value is None or value == ""` of `check_empty`. -/
def isNoneOrEmptyStr : Yaml → Bool
  | .null => true
  | .str s => s.isEmpty
  | _ => false

mutual

/-- `check_empty`: `False` (a violation) when some mapping entry's value is
`None` or the empty string, recursing into mapping values and sequence
elements.  Note that sequence *elements* themselves are only recursed into,
never tested against `None`/`""` — only the dict branch performs that test. -/
def checkEmpty : Yaml → Bool
  | .map kvs => checkEmptyKvs kvs
  | .seq xs => checkEmptyList xs
  | _ => true

/-- The dict loop of `check_empty`. -/
def checkEmptyKvs : List (String × Yaml) → Bool
  | [] => true
  | kv :: rest =>
    if isNoneOrEmptyStr kv.2 then false
    else if !checkEmpty kv.2 then false
    else checkEmptyKvs rest

/-- The list loop of `check_empty`. -/
def checkEmptyList : List Yaml → Bool
  | [] => true
  | x :: rest =>
    if !checkEmpty x then false
    else checkEmptyList rest

end

/-- `_validate_naming_convention`: the filename must start with `root.`
(the content argument is unused in the source). -/
def validateNamingConvention (filename : String) : Bool :=
  strStartsWith filename "root."

/-- `_validate_data_integrity`. -/
def validateDataIntegrity (kvs : List (String × Yaml)) : Bool :=
  checkEmpty (.map kvs)

/-- `_calculate_quality_score`: start at 100; −20 for a missing `version`;
−5 for each missing documentation field; −10 for a filename that does not
start with `root.`; −15 when the emptiness check fails; floor at 0. -/
def calcQualityScore (kvs : List (String × Yaml)) (filename : String) : Int :=
  let s1 : Int := 100 - (if mapHasKey "version" kvs then 0 else 20)
  let s2 := s1 - (if mapHasKey "description" kvs then 0 else 5)
  let s3 := s2 - (if mapHasKey "created" kvs then 0 else 5)
  let s4 := s3 - (if mapHasKey "updated" kvs then 0 else 5)
  let s5 := s4 - (if validateNamingConvention filename then 0 else 10)
  let s6 := s5 - (if validateDataIntegrity kvs then 0 else 15)
  max s6 0

mutual

/-- The recursive key walk of `_extract_entities`. -/
def entityKeys : Yaml → List String
  | .map kvs => entityKeysKvs kvs
  | .seq xs => entityKeysList xs
  | _ => []

/-- Key walk over mapping entries: add the key, then recurse into the value. -/
def entityKeysKvs : List (String × Yaml) → List String
  | [] => []
  | kv :: rest => kv.1 :: (entityKeys kv.2 ++ entityKeysKvs rest)

/-- Key walk over sequence elements. -/
def entityKeysList : List Yaml → List String
  | [] => []
  | x :: rest => entityKeys x ++ entityKeysList rest

end

/-- `_extract_entities`: the top-level keys plus every nested key, as a set. -/
def extractEntities (kvs : List (String × Yaml)) : List String :=
  dedupStr (kvs.map (·.1) ++ entityKeysKvs kvs)

/-- The artifacts the metrics pass iterates, paired with their
workspace-relative paths (`all_files` here is a plain list concatenation,
not a set). -/
def metricsFiles (ws : Workspace) : List (Artifact × String) :=
  (configGlob ws).map (fun a => (a, relConfig a.name)) ++
  (specsGlob ws).map (fun a => (a, relSpecs a.name)) ++
  (registryGlob ws).map (fun a => (a, relRegistry a.name))

/-- Dict insert-or-overwrite for the metrics map. -/
def assocUpsert (m : List (String × FileMetrics)) (k : String) (v : FileMetrics) :
    List (String × FileMetrics) :=
  match m with
  | [] => [(k, v)]
  | kv :: rest => if kv.1 == k then (k, v) :: rest else kv :: assocUpsert rest k v

/-- The loop body of `calculate_file_metrics`, in source evaluation order:
entity and reference counts are pure, dependency extraction and the
complexity score may raise. -/
def calcMetricsAux (acc : List (String × FileMetrics)) :
    List (Artifact × String) → Except PyErr (List (String × FileMetrics))
  | [] => .ok acc
  | ap :: rest =>
    if truthy ap.1 then
      match extractDependencies (kvsOf ap.1) with
      | .error e => .error e
      | .ok deps =>
        match calcComplexity (kvsOf ap.1) with
        | .error e => .error e
        | .ok comp =>
          calcMetricsAux (assocUpsert acc ap.2
            ⟨ap.2, determineFileType ap.1.name,
              (extractEntities (kvsOf ap.1)).length,
              (extractUrns (kvsOf ap.1)).length + (extractFileReferences (kvsOf ap.1)).length,
              deps.length, comp, calcQualityScore (kvsOf ap.1) ap.1.name⟩) rest
    else calcMetricsAux acc rest

/-- `calculate_file_metrics`. -/
def calculateFileMetrics (ws : Workspace) : Except PyErr (List (String × FileMetrics)) :=
  calcMetricsAux [] (metricsFiles ws)

/-- The fixed list of targeted specification files of `validate_new_files`. -/
def newSpecFileNames : List String :=
  ["root.specs.namespace.yaml", "root.specs.paths.yaml", "root.specs.urn.yaml"]

/-- Per-name dispatch of the spec checks (`"namespace" in spec_file`,
`elif "paths" in`, `elif "urn" in`): message prefix and required fields. -/
def newSpecCheck (name : String) : Option (String × List String) :=
  if strContains name "namespace" then
    some ("namespace规范缺少必需字段: ", ["namespaces", "hierarchy", "validation_rules"])
  else if strContains name "paths" then
    some ("paths规范缺少必需字段: ", ["path_patterns", "validation_rules", "mapping_rules"])
  else if strContains name "urn" then
    some ("URN规范缺少必需字段: ", ["urn_format", "namespace_rules", "validation_rules"])
  else none

/-- Find a file of a directory listing by exact name (direct path lookup,
not a glob). -/
def findInDir (dir : List Artifact) (name : String) : Option Artifact :=
  dir.find? (fun a => a.name == name)

/-- The targeted new-specification checks of `validate_new_files`. -/
def newSpecIssues (ws : Workspace) : List ValidationIssue :=
  newSpecFileNames.flatMap (fun name =>
    match findInDir ws.specsDir name with
    | none => []
    | some a =>
      if truthy a then
        match newSpecCheck name with
        | none => []
        | some pf =>
          pf.2.filterMap (fun f =>
            if mapHasKey f (kvsOf a) then none
            else some ⟨"high", "schema", relSpecs name, none, pf.1 ++ f,
              some ("添加 " ++ f ++ " 定义"), true, []⟩)
      else [])

/-- The fixed list of targeted registry files of `validate_new_files`. -/
def newRegistryFileNames : List String :=
  ["root.registry.devices.yaml", "root.registry.namespaces.yaml"]

/-- Per-index entry checks: a non-dict entry is a medium issue. -/
def entryIndexIssues (path : String) : Nat → List Yaml → List ValidationIssue
  | _, [] => []
  | i, e :: es =>
    (match e with
     | .map _ => []
     | _ => [⟨"medium", "schema", path, none,
         "entries[" ++ toString i ++ "] 必须是对象类型", some "将条目改为对象格式", true, []⟩]) ++
    entryIndexIssues path (i + 1) es

/-- The targeted new-registry checks of `validate_new_files`. -/
def newRegistryIssues (ws : Workspace) : List ValidationIssue :=
  newRegistryFileNames.flatMap (fun name =>
    match findInDir ws.registryDir name with
    | none => []
    | some a =>
      if truthy a then
        if !mapHasKey "entries" (kvsOf a) then
          [⟨"high", "schema", relRegistry name, none, "注册表文件缺少entries字段",
            some "添加entries数组定义", true, []⟩]
        else
          match (mapGet (kvsOf a) "entries").getD .null with
          | .seq entries => entryIndexIssues (relRegistry name) 0 entries
          | _ => [⟨"high", "schema", relRegistry name, none, "entries字段必须是数组类型",
              some "将entries改为数组格式", true, []⟩]
      else [])

/-- Required fields of one gate definition. -/
def gateFieldIssues (path gname : String) (gcfg : List (String × Yaml)) :
    List ValidationIssue :=
  (["enabled", "description"]).filterMap (fun f =>
    if mapHasKey f gcfg then none
    else some ⟨"medium", "schema", path, none,
      "gate " ++ quoteCh ++ gname ++ quoteCh ++ " 缺少必需字段: " ++ f,
      some ("添加 " ++ f ++ " 定义"), true, []⟩)

/-- The loop over `gates.items()`. -/
def gateIssues (path : String) : List (String × Yaml) → List ValidationIssue
  | [] => []
  | g :: rest =>
    (match g.2 with
     | .map m => gateFieldIssues path g.1 m
     | _ => [⟨"medium", "schema", path, none,
         "gate " ++ quoteCh ++ g.1 ++ quoteCh ++ " 配置必须是对象类型",
         some "将gate配置改为对象格式", true, []⟩]) ++
    gateIssues path rest

/-- The gate-map checks of `validate_new_files`; `content["gates"].items()`
raises `AttributeError` when the `gates` value is not a dict. -/
def gatesMapIssues (ws : Workspace) : Except PyErr (List ValidationIssue) :=
  match findInDir ws.configDir "gates.map.yaml" with
  | none => .ok []
  | some a =>
    if truthy a then
      let missing := (["version", "gates", "execution_order"]).filterMap (fun f =>
        if mapHasKey f (kvsOf a) then none
        else some ⟨"high", "schema", relConfig "gates.map.yaml", none,
          "gates.map.yaml缺少必需字段: " ++ f, some ("添加 " ++ f ++ " 定义"), true, []⟩)
      if mapHasKey "gates" (kvsOf a) then
        match pyItems ((mapGet (kvsOf a) "gates").getD .null) with
        | .error e => .error e
        | .ok gates => .ok (missing ++ gateIssues (relConfig "gates.map.yaml") gates)
      else .ok missing
    else .ok []

/-- `validate_new_files`: targeted spec files, then targeted registry files,
then the gate map. -/
def validateNewFiles (ws : Workspace) : Except PyErr (List ValidationIssue) :=
  match gatesMapIssues ws with
  | .error e => .error e
  | .ok g => .ok (newSpecIssues ws ++ newRegistryIssues ws ++ g)

/-- The summary counters of the run (`self.results["summary"]`). -/
structure RunSummary where
  total_checks : Int
  passed : Int
  failed : Int
  warnings : Int
  info : Int
deriving DecidableEq, Repr

/-- Python `issue["severity"]` where `issue` is a `ValidationIssue`
dataclass instance.  Plain dataclasses do not implement `__getitem__`, so
subscripting one raises `TypeError` (`'ValidationIssue' object is not
subscriptable`) regardless of the key.  The summary code at the end of
`generate_enhanced_report` subscripts the objects in `issues` (the dataclass
list) rather than the dict copies it stored in `results["issues"]` one line
earlier. -/
def dataclassSubscript (_ : ValidationIssue) (_ : String) : Except PyErr Yaml :=
  .error .typeError

/-- The comprehension `[i for i in issues if i["severity"] in sevs]`,
evaluated left to right; the first element's subscript already raises. -/
def filterSevIn (sevs : List String) : List ValidationIssue → Except PyErr (List ValidationIssue)
  | [] => .ok []
  | i :: rest =>
    match dataclassSubscript i "severity" with
    | .error e => .error e
    | .ok v =>
      match filterSevIn sevs rest with
      | .error e => .error e
      | .ok rest2 => .ok (if sevs.any (fun s => pyEq v (.str s)) then i :: rest2 else rest2)

/-- The summary block of `generate_enhanced_report`: `total_checks`,
`failed`, `warnings`, `info`, then `passed = max(0, total - failed)`. -/
def computeSummary (issues : List ValidationIssue) : Except PyErr RunSummary :=
  match filterSevIn ["critical", "high"] issues with
  | .error e => .error e
  | .ok failedL =>
    match filterSevIn ["medium"] issues with
    | .error e => .error e
    | .ok warnL =>
      match filterSevIn ["low", "info"] issues with
      | .error e => .error e
      | .ok infoL =>
        .ok ⟨(issues.length : Int),
          max 0 ((issues.length : Int) - (failedL.length : Int)),
          (failedL.length : Int), (warnL.length : Int), (infoL.length : Int)⟩

/-- The issue lists of the five checkers, concatenated in the invocation
order of `generate_enhanced_report`. -/
def collectedIssues (ws : Workspace) : Except PyErr (List ValidationIssue) :=
  match validateCrossFileConsistency ws with
  | .error e => .error e
  | .ok i2 =>
    match validateReferenceIntegrity ws with
    | .error e => .error e
    | .ok i3 =>
      match validateDependencyGraph ws with
      | .error e => .error e
      | .ok i4 =>
        match validateNewFiles ws with
        | .error e => .error e
        | .ok i5 => .ok (validateSchemaCompliance ws ++ i2 ++ i3 ++ i4 ++ i5)

/-- The observable outcome of one run. -/
structure RunResult where
  issues : List ValidationIssue
  metrics : List (String × FileMetrics)
  summary : RunSummary
  passFlag : Bool

/-- `generate_enhanced_report`: run the five checkers, compute the metrics,
then the summary and the pass verdict `failed == 0`.  The narrative-report
rendering that follows in the source is not modelled: it only formats
strings, no claim references it, and on the only path that reaches it
without a prior exception the issue list is empty, so its comprehensions
evaluate no dataclass subscript. -/
def generateEnhancedReport (ws : Workspace) : Except PyErr RunResult :=
  match collectedIssues ws with
  | .error e => .error e
  | .ok issues =>
    match calculateFileMetrics ws with
    | .error e => .error e
    | .ok metrics =>
      match computeSummary issues with
      | .error e => .error e
      | .ok s => .ok ⟨issues, metrics, s, s.failed == 0⟩

/-- The process exit status of `main`: `0 if validator.results['pass'] else
1`; an uncaught exception makes the interpreter exit with status 1. -/
def mainExit (ws : Workspace) : Nat :=
  match generateEnhancedReport ws with
  | .ok r => if r.passFlag then 0 else 1
  | .error _ => 1

/-- Two parseable config artifacts that agree on everything except the
declared `version`. -/
def wsTwoVersions : Workspace :=
  ⟨[⟨"root.a.yaml", some [("version", .str "1.0")]⟩,
    ⟨"root.b.yaml", some [("version", .str "2.0")]⟩], [], [], []⟩

/-- A workspace whose single config artifact contains an empty nested
mapping. -/
def wsEmptyNested : Workspace :=
  ⟨[⟨"root.a.yaml", some [("a", .map [])]⟩], [], [], []⟩

/-- A workspace whose single config artifact declares a dependency on a
file that is not a known node. -/
def wsDanglingDep : Workspace :=
  ⟨[⟨"root.a.yaml", some [("depends_on", .seq [.str "nope.yaml"])]⟩], [], [], []⟩

/-- Three config artifacts: `root.c.yaml` depends on `root.a.yaml`, and
`root.a.yaml` / `root.b.yaml` form a two-cycle.  `root.c.yaml` comes first
in the directory listing, so the outer DFS iteration starts there. -/
def wsCycleChain : Workspace :=
  ⟨[⟨"root.c.yaml", some [("depends_on", .seq [.str "root.a.yaml"])]⟩,
    ⟨"root.a.yaml", some [("depends_on", .seq [.str "root.b.yaml"])]⟩,
    ⟨"root.b.yaml", some [("depends_on", .seq [.str "root.a.yaml"])]⟩], [], [], []⟩

/-- The spec's reference scenario: a registry declaring
`urn:device:sensor-1` and a config referencing `urn:device:sensor-2`. -/
def wsUrnScenario : Workspace :=
  ⟨[⟨"root.app.yaml", some [("ref", .str "urn:device:sensor-2")]⟩], [],
    [⟨"root.registry.devices.yaml",
      some [("entries", .seq [.map [("urn", .str "urn:device:sensor-1")]])]⟩], []⟩

/-- Two config artifacts with distinct version values one of which is a
dict (unhashable). -/
def wsUnhashableVersion : Workspace :=
  ⟨[⟨"root.a.yaml", some [("version", .map [("x", .int 1)])]⟩,
    ⟨"root.b.yaml", some [("version", .str "1.0")]⟩], [], [], []⟩

/-- Two config artifacts with distinct scalar version values. -/
def wsScalarVersions : Workspace :=
  ⟨[⟨"root.x.yaml", some [("version", .str "3.0")]⟩,
    ⟨"root.y.yaml", some [("version", .str "4.0")]⟩], [], [], []⟩

/-- A workspace that produces no issues at all: one complete, well-named
config artifact. -/
def wsClean : Workspace :=
  ⟨[⟨"root.ok.yaml", some [("version", .str "1.0"), ("description", .str "d"),
      ("created", .str "c"), ("updated", .str "u")]⟩], [], [], []⟩

/-- C6 claim-side classifier, following the claim's stated priority:
`specs.` → spec, `registry.` → registry, `gates.` → gates, then the
family-prefix test for config, else other. -/
def claimFileTypeC6 (f : String) : String :=
  if strContains f "specs." then "spec"
  else if strContains f "registry." then "registry"
  else if strContains f "gates." then "gates"
  else if strStartsWith f "root." &&
      !(strContains f "specs." || strContains f "registry." || strContains f "gates.") then "config"
  else "other"

/-- C6 amended classifier: the `config` test — a name containing `config`,
or starting with `root.` and containing none of the three markers — takes
precedence over every marker test; only then come `specs.`, `registry.`,
`gates.`, and `other`. -/
def amendedFileTypeC6 (f : String) : String :=
  if strContains f "config" then "config"
  else if strStartsWith f "root." && !strContains f "specs." &&
      !strContains f "registry." && !strContains f "gates." then "config"
  else if strContains f "specs." then "spec"
  else if strContains f "registry." then "registry"
  else if strContains f "gates." then "gates"
  else "other"

mutual

/-- C5 claim-side deep-emptiness test: some value anywhere in the tree —
mapping values and sequence elements alike — is null or the empty string. -/
def specValueBadC5 : Yaml → Bool
  | .map kvs => specValueBadKvsC5 kvs
  | .seq xs => specValueBadListC5 xs
  | _ => false

/-- Claim-side emptiness over mapping entries. -/
def specValueBadKvsC5 : List (String × Yaml) → Bool
  | [] => false
  | kv :: rest => isNoneOrEmptyStr kv.2 || specValueBadC5 kv.2 || specValueBadKvsC5 rest

/-- Claim-side emptiness over sequence elements (the claim counts these as
values too). -/
def specValueBadListC5 : List Yaml → Bool
  | [] => false
  | x :: rest => isNoneOrEmptyStr x || specValueBadC5 x || specValueBadListC5 rest

end

/-- C5 claim-side quality score: 100 − 20 (version) − 5·3 (docs) − 10
(prefix) − 15 (deep null/empty, sequences included), floored at 0. -/
def claimQualityC5 (kvs : List (String × Yaml)) (filename : String) : Int :=
  max 0 (100 - (if mapHasKey "version" kvs then 0 else 20)
    - (if mapHasKey "description" kvs then 0 else 5)
    - (if mapHasKey "created" kvs then 0 else 5)
    - (if mapHasKey "updated" kvs then 0 else 5)
    - (if strStartsWith filename "root." then 0 else 10)
    - (if specValueBadKvsC5 kvs then 15 else 0))

mutual

/-- C5 amended deep-emptiness test: some *mapping entry* anywhere in the
tree (reached through mappings and sequences) has a null or empty-string
value; null/empty scalars that are sequence elements are not tested. -/
def amendedValueBadC5 : Yaml → Bool
  | .map kvs => amendedValueBadKvsC5 kvs
  | .seq xs => amendedValueBadListC5 xs
  | _ => false

/-- Amended emptiness over mapping entries. -/
def amendedValueBadKvsC5 : List (String × Yaml) → Bool
  | [] => false
  | kv :: rest => isNoneOrEmptyStr kv.2 || amendedValueBadC5 kv.2 || amendedValueBadKvsC5 rest

/-- Amended emptiness over sequence elements: recurse only. -/
def amendedValueBadListC5 : List Yaml → Bool
  | [] => false
  | x :: rest => amendedValueBadC5 x || amendedValueBadListC5 rest

end

/-- C5 amended quality score. -/
def amendedQualityC5 (kvs : List (String × Yaml)) (filename : String) : Int :=
  max 0 (100 - (if mapHasKey "version" kvs then 0 else 20)
    - (if mapHasKey "description" kvs then 0 else 5)
    - (if mapHasKey "created" kvs then 0 else 5)
    - (if mapHasKey "updated" kvs then 0 else 5)
    - (if strStartsWith filename "root." then 0 else 10)
    - (if amendedValueBadKvsC5 kvs then 15 else 0))

mutual

/-- C7 claim-side maximum nesting depth: scalars have depth 0, containers
one more than the deepest child (an empty container counts as depth 1). -/
def specMaxDepthC7 : Yaml → Nat
  | .map kvs => 1 + specMaxDepthKvsC7 kvs
  | .seq xs => 1 + specMaxDepthListC7 xs
  | _ => 0

/-- Maximum child depth over mapping values. -/
def specMaxDepthKvsC7 : List (String × Yaml) → Nat
  | [] => 0
  | kv :: rest => max (specMaxDepthC7 kv.2) (specMaxDepthKvsC7 rest)

/-- Maximum child depth over sequence elements. -/
def specMaxDepthListC7 : List Yaml → Nat
  | [] => 0
  | x :: rest => max (specMaxDepthC7 x) (specMaxDepthListC7 rest)

end

/-- C7 claim-side complexity score:
`min(100, 10·maxdepth + 5·mapping nodes + 2·sequence elements)`. -/
def specComplexityC7 (kvs : List (String × Yaml)) : Int :=
  min 100 (10 * (specMaxDepthC7 (.map kvs) : Int) + 5 * (countObjects (.map kvs) : Int) +
    2 * (countArrayItems (.map kvs) : Int))

mutual

/-- Whether every mapping and sequence node of the tree is non-empty (the
domain on which the depth computation cannot raise). -/
def noEmptyContainers : Yaml → Bool
  | .map kvs => !kvs.isEmpty && noEmptyContainersKvs kvs
  | .seq xs => !xs.isEmpty && noEmptyContainersList xs
  | _ => true

/-- Non-empty containers below mapping values. -/
def noEmptyContainersKvs : List (String × Yaml) → Bool
  | [] => true
  | kv :: rest => noEmptyContainers kv.2 && noEmptyContainersKvs rest

/-- Non-empty containers below sequence elements. -/
def noEmptyContainersList : List Yaml → Bool
  | [] => true
  | x :: rest => noEmptyContainers x && noEmptyContainersList rest

end

/-- The emptiness walk of the source tests exactly the amended predicate:
only mapping values are compared against null / empty string. -/
theorem checkEmpty_eq_amended : ∀ v, checkEmpty v = !amendedValueBadC5 v := by
  apply checkEmpty.induct
    (fun v => checkEmpty v = !amendedValueBadC5 v)
    (fun xs => checkEmptyList xs = !amendedValueBadListC5 xs)
    (fun kvs => checkEmptyKvs kvs = !amendedValueBadKvsC5 kvs)
  all_goals intros
  all_goals simp_all [checkEmpty, checkEmptyKvs, checkEmptyList, amendedValueBadC5,
    amendedValueBadKvsC5, amendedValueBadListC5]
  all_goals try tauto

/-- C5 counterexample: for the content `{"a": [""]}` (an empty string as a
sequence element) and a well-prefixed filename, the code scores
100−20−5−5−5 = 65 — the deep-emptiness deduction does not fire — while the
claim's formula (which deducts 15 for a null/empty value nested inside a
sequence) gives 50. -/
theorem C5_counterexample :
    calcQualityScore [("a", .seq [.str ""])] "root.x.yaml" = 65 ∧
    claimQualityC5 [("a", .seq [.str ""])] "root.x.yaml" = 50 ∧
    calcQualityScore [("a", .seq [.str ""])] "root.x.yaml" ≠
      claimQualityC5 [("a", .seq [.str ""])] "root.x.yaml" := by
  refine ⟨rfl, rfl, by decide⟩

/-- C5 (amended): the quality score equals 100 minus 20 if `version` is
absent, minus 5 for each of `description`, `created`, `updated` absent,
minus 10 if the filename does not start with `root.`, minus 15 if some
*mapping entry* anywhere in the tree has a null or empty-string value
(null/empty scalars occurring directly as sequence elements are not
detected), floored at 0. -/
theorem C5_theorem (kvs : List (String × Yaml)) (f : String) :
    calcQualityScore kvs f = amendedQualityC5 kvs f := by
  have h : validateDataIntegrity kvs = !amendedValueBadKvsC5 kvs := by
    have h2 := checkEmpty_eq_amended (.map kvs)
    simpa [validateDataIntegrity, checkEmpty, amendedValueBadC5] using h2
  unfold calcQualityScore amendedQualityC5 validateNamingConvention
  rw [h]
  cases amendedValueBadKvsC5 kvs <;> simp [max_comm]

/-- C6 counterexample: `"root.specs.config.yaml"` contains the marker
`specs.`, so the claim's priority classifies it `spec`; the code's first
condition (`"config" in filename or ...`) fires first and classifies it
`config`. -/
theorem C6_counterexample :
    determineFileType "root.specs.config.yaml" = "config" ∧
    claimFileTypeC6 "root.specs.config.yaml" = "spec" ∧
    determineFileType "root.specs.config.yaml" ≠ claimFileTypeC6 "root.specs.config.yaml" := by
  refine ⟨rfl, rfl, by decide⟩

/-- C6 (amended): classification follows the code's precedence — a name
containing `config`, or starting with `root.` and containing none of
`specs.`, `registry.`, `gates.`, is `config`; otherwise a name containing
`specs.` is `spec`, then `registry.` → `registry`, then `gates.` → `gates`,
else `other`. -/
theorem C6_theorem : ∀ f, determineFileType f = amendedFileTypeC6 f := by
  intro f
  unfold determineFileType amendedFileTypeC6
  cases hc : strContains f "config" <;> cases hs : strContains f "specs." <;>
    cases hr : strContains f "registry." <;> cases hg : strContains f "gates." <;>
    cases hp : strStartsWith f "root." <;> simp

/-- Folding `max` from the left equals `max` of the seed with the
right-fold over 0. -/
theorem foldl_max_foldr (m : Nat) (ms : List Nat) :
    ms.foldl max m = max m (ms.foldr max 0) := by
  induction ms generalizing m with
  | nil => simp
  | cons a t ih => simp [List.foldl, List.foldr, ih (max m a), max_assoc]

/-- Left-fold of `max` commutes with adding a constant to seed and
elements. -/
theorem foldl_max_map_add (c m : Nat) (ms : List Nat) :
    (ms.map (fun x => c + x)).foldl max (c + m) = c + ms.foldl max m := by
  induction ms generalizing m with
  | nil => simp
  | cons a t ih =>
    simp only [List.map, List.foldl]
    rw [max_add_add_left]
    exact ih _

/-- The claim-side maximum child depth over mapping values is the
right-fold of the individual depths. -/
theorem specMaxDepthKvs_foldr (kvs : List (String × Yaml)) :
    specMaxDepthKvsC7 kvs = (kvs.map (fun kv => specMaxDepthC7 kv.2)).foldr max 0 := by
  induction kvs with
  | nil => rfl
  | cons kv rest ih => simp [specMaxDepthKvsC7, ih]

/-- The claim-side maximum child depth over sequence elements is the
right-fold of the individual depths. -/
theorem specMaxDepthList_foldr (xs : List Yaml) :
    specMaxDepthListC7 xs = (xs.map specMaxDepthC7).foldr max 0 := by
  induction xs with
  | nil => rfl
  | cons x rest ih => simp [specMaxDepthListC7, ih]


/-- On trees without empty containers, `calculate_depth(obj, d)` succeeds
and returns `d` plus the claim-side maximum nesting depth. -/
theorem calcDepth_ok : ∀ v, ∀ d : Nat, noEmptyContainers v = true →
    calcDepth v d = .ok (d + specMaxDepthC7 v) := by
  apply calcDepth.induct
    (fun v d => noEmptyContainers v = true → calcDepth v d = .ok (d + specMaxDepthC7 v))
    (fun xs d => noEmptyContainersList xs = true →
      calcDepthList xs d = .ok (xs.map (fun x => (d + 1) + specMaxDepthC7 x)))
    (fun kvs d => noEmptyContainersKvs kvs = true →
      calcDepthKvs kvs d = .ok (kvs.map (fun kv => (d + 1) + specMaxDepthC7 kv.2)))
  · intro kvs d e herr ih hne
    simp only [noEmptyContainers, Bool.and_eq_true] at hne
    rw [ih hne.2] at herr
    exact Except.noConfusion herr
  · intro kvs d ds hok ih hne
    simp only [noEmptyContainers, Bool.and_eq_true] at hne
    simp only [calcDepth, ih hne.2]
    cases kvs with
    | nil => simp at hne
    | cons kv rest =>
      simp only [List.map, maxListE]
      have h1 : rest.map (fun kv => d + 1 + specMaxDepthC7 kv.2) =
          (rest.map (fun kv => specMaxDepthC7 kv.2)).map (fun x => (d + 1) + x) := by
        simp [List.map_map]
      rw [h1, foldl_max_map_add, foldl_max_foldr, ← specMaxDepthKvs_foldr]
      have h2 : specMaxDepthC7 (Yaml.map (kv :: rest)) =
          1 + max (specMaxDepthC7 kv.2) (specMaxDepthKvsC7 rest) := by
        simp [specMaxDepthC7, specMaxDepthKvsC7]
      rw [h2]
      congr 1
      omega
  · intro xs d e herr ih hne
    simp only [noEmptyContainers, Bool.and_eq_true] at hne
    rw [ih hne.2] at herr
    exact Except.noConfusion herr
  · intro xs d ds hok ih hne
    simp only [noEmptyContainers, Bool.and_eq_true] at hne
    simp only [calcDepth, ih hne.2]
    cases xs with
    | nil => simp at hne
    | cons x rest =>
      simp only [List.map, maxListE]
      have h1 : rest.map (fun x => d + 1 + specMaxDepthC7 x) =
          (rest.map specMaxDepthC7).map (fun x => (d + 1) + x) := by
        simp [List.map_map]
      rw [h1, foldl_max_map_add, foldl_max_foldr, ← specMaxDepthList_foldr]
      have h2 : specMaxDepthC7 (Yaml.seq (x :: rest)) =
          1 + max (specMaxDepthC7 x) (specMaxDepthListC7 rest) := by
        simp [specMaxDepthC7, specMaxDepthListC7]
      rw [h2]
      congr 1
      omega
  · intro t d hmap hseq _
    cases t with
    | map kvs => exact absurd rfl (hmap kvs)
    | seq xs => exact absurd rfl (hseq xs)
    | null => rfl
    | bool b => rfl
    | int n => rfl
    | str s => rfl
  · intro d _
    rfl
  · intro x xs d e herr ih hne
    simp only [noEmptyContainersList, Bool.and_eq_true] at hne
    rw [ih hne.1] at herr
    exact Except.noConfusion herr
  · intro x xs d dd hok e herr ih1 ih2 hne
    simp only [noEmptyContainersList, Bool.and_eq_true] at hne
    rw [ih2 hne.2] at herr
    exact Except.noConfusion herr
  · intro x xs d dd hok ds hok2 ih1 ih2 hne
    simp only [noEmptyContainersList, Bool.and_eq_true] at hne
    simp only [calcDepthList, ih1 hne.1, ih2 hne.2, List.map]
  · intro d _
    rfl
  · intro kv kvs d e herr ih hne
    simp only [noEmptyContainersKvs, Bool.and_eq_true] at hne
    rw [ih hne.1] at herr
    exact Except.noConfusion herr
  · intro kv kvs d dd hok e herr ih1 ih2 hne
    simp only [noEmptyContainersKvs, Bool.and_eq_true] at hne
    rw [ih2 hne.2] at herr
    exact Except.noConfusion herr
  · intro kv kvs d dd hok ds hok2 ih1 ih2 hne
    simp only [noEmptyContainersKvs, Bool.and_eq_true] at hne
    simp only [calcDepthKvs, ih1 hne.1, ih2 hne.2, List.map]

/-- C7 counterexample: for the content `{"a": []}` the depth computation
raises `ValueError` (`max` of an empty sequence), so the complexity score is
not the claimed formula value — there is no score at all. -/
theorem C7_counterexample :
    calcComplexity [("a", .seq [])] = .error .valueError ∧
    calcComplexity [("a", .seq [])] ≠ .ok (specComplexityC7 [("a", .seq [])]) := by
  refine ⟨rfl, ?_⟩
  intro h
  rw [show calcComplexity [("a", .seq [])] = .error .valueError from rfl] at h
  cases h

/-- C7 (amended): for every content tree all of whose mappings and
sequences are non-empty, the complexity score is computed and equals
`min(100, 10·max nesting depth + 5·mapping-node count + 2·sequence-element
count)`, and therefore never exceeds 100.  (On trees with an empty
container the computation raises instead, see `C7_counterexample`.) -/
theorem C7_theorem (kvs : List (String × Yaml))
    (h : noEmptyContainers (.map kvs) = true) :
    calcComplexity kvs = .ok (specComplexityC7 kvs) ∧ specComplexityC7 kvs ≤ 100 := by
  constructor
  · unfold calcComplexity
    rw [calcDepth_ok (.map kvs) 0 h]
    simp [specComplexityC7, min_comm]
  · exact min_le_left 100 _

/-- C7 witness: a concrete tree without empty containers, at which the
amended formula is attained. -/
theorem C7_witness :
    calcComplexity [("a", .str "x"), ("b", .seq [.int 1, .int 2])] =
      .ok (specComplexityC7 [("a", .str "x"), ("b", .seq [.int 1, .int 2])]) ∧
    specComplexityC7 [("a", .str "x"), ("b", .seq [.int 1, .int 2])] ≤ 100 :=
  C7_theorem [("a", .str "x"), ("b", .seq [.int 1, .int 2])] rfl

/-- C1: evaluation at the failing input.  A run over two parseable config
artifacts that disagree on `version` produces exactly one issue, of severity
`medium` — so the claim requires a true verdict and exit status 0 — but the
summary computation subscripts the `ValidationIssue` dataclass instances
(`i["severity"]`), raising `TypeError` on any non-empty issue list: the run
aborts with exit status 1 and the verdict is never set.  On an issue-free
workspace the run completes and exits 0. -/
theorem C1_theorem :
    collectedIssues wsTwoVersions = .ok [versionIssue (versionsOf wsTwoVersions)] ∧
    (versionIssue (versionsOf wsTwoVersions)).severity = "medium" ∧
    generateEnhancedReport wsTwoVersions = .error .typeError ∧
    mainExit wsTwoVersions = 1 ∧
    collectedIssues wsClean = .ok [] ∧
    mainExit wsClean = 0 :=
  ⟨rfl, rfl, rfl, rfl, rfl, rfl⟩

/-- C2: evaluation at the failing input.  The artifact `root.a.yaml`
declares a dependency on `nope.yaml`, which is not a known node, yet the
dependency checker emits no issue at all: edges are filtered to the known
node set while the graph is built, so the later `dep not in all_files` test
over the stored edges can never fire. -/
theorem C2_theorem :
    extractDependencies [("depends_on", .seq [.str "nope.yaml"])] = .ok [.str "nope.yaml"] ∧
    allFilesList wsDanglingDep = ["root.a.yaml"] ∧
    validateDependencyGraph wsDanglingDep = .ok [] :=
  ⟨rfl, rfl, rfl⟩

/-- Every edge target of a graph lies in the node set. -/
def goodGraph (g : List (String × List String)) (allF : List String) : Prop :=
  ∀ kv ∈ g, ∀ d ∈ kv.2, d ∈ allF

/-- `graphAddEdge` preserves `goodGraph` when the new target is a node. -/
theorem graphAddEdge_good {g : List (String × List String)} {allF : List String}
    {n d : String} (hg : goodGraph g allF) (hd : d ∈ allF) :
    goodGraph (graphAddEdge g n d) allF := by
  induction g with
  | nil =>
    intro kv hkv x hx
    simp only [graphAddEdge, List.mem_singleton] at hkv
    subst hkv
    simp only [List.mem_singleton] at hx
    subst hx
    exact hd
  | cons kv0 rest ih =>
    intro kv hkv x hx
    by_cases he : kv0.1 == n
    · simp [graphAddEdge, he] at hkv
      rcases hkv with h1 | h2
      · subst h1
        by_cases hm : d ∈ kv0.2
        · simp only [hm, if_true] at hx
          exact hg kv0 (List.mem_cons_self _ _) x hx
        · simp only [hm, if_false, List.mem_append, List.mem_singleton] at hx
          rcases hx with hx | hx
          · exact hg kv0 (List.mem_cons_self _ _) x hx
          · subst hx; exact hd
      · exact hg kv (List.mem_cons_of_mem _ h2) x hx
    · simp [graphAddEdge, he] at hkv
      rcases hkv with h1 | h2
      · subst h1
        exact hg kv (List.mem_cons_self _ _) x hx
      · exact ih (fun a ha y hy => hg a (List.mem_cons_of_mem _ ha) y hy) kv h2 x hx

/-- `graphAddDeps` preserves `goodGraph`: only targets that passed the
`dep in all_files` test are added. -/
theorem graphAddDeps_good {allF : List String} {n : String} :
    ∀ (deps : List Yaml) (g : List (String × List String)), goodGraph g allF →
    goodGraph (graphAddDeps allF g n deps) allF := by
  intro deps
  induction deps with
  | nil => intro g hg; exact hg
  | cons dp dps ih =>
    intro g hg
    cases dp with
    | str s =>
      by_cases hs : s ∈ allF
      · rw [graphAddDeps, if_pos hs]
        exact ih _ (graphAddEdge_good hg hs)
      · rw [graphAddDeps, if_neg hs]
        exact ih _ hg
    | null => exact ih _ hg
    | bool b => exact ih _ hg
    | int m => exact ih _ hg
    | seq l => exact ih _ hg
    | map m => exact ih _ hg

/-- The built dependency graph has all edge targets in `all_files`. -/
theorem buildGraphAux_good {allF : List String} :
    ∀ (arts : List Artifact) (g0 g : List (String × List String)), goodGraph g0 allF →
    buildGraphAux allF g0 arts = .ok g → goodGraph g allF := by
  intro arts
  induction arts with
  | nil =>
    intro g0 g hg h
    injection h with h
    subst h
    exact hg
  | cons a rest ih =>
    intro g0 g hg h
    by_cases ht : truthy a
    · rw [buildGraphAux, if_pos ht] at h
      cases hdep : extractDependencies (kvsOf a) with
      | error e => rw [hdep] at h; exact Except.noConfusion h
      | ok deps =>
        rw [hdep] at h
        exact ih _ _ (graphAddDeps_good deps g0 hg) h
    · rw [buildGraphAux, if_neg ht] at h
      exact ih _ _ hg h

/-- A filterMap of missing-dependency tests over targets that are all
nodes produces nothing. -/
theorem filterMap_missing_nil (n : String) (allF : List String) :
    ∀ ds : List String, (∀ d ∈ ds, d ∈ allF) →
    ds.filterMap (fun d => if d ∈ allF then none else some (missingDepIssue n d)) = [] := by
  intro ds
  induction ds with
  | nil => intro _; rfl
  | cons d dt ih =>
    intro h
    simp only [List.filterMap_cons]
    rw [if_pos (h d (List.mem_cons_self _ _))]
    exact ih (fun x hx => h x (List.mem_cons_of_mem _ hx))

/-- C2 supporting fact: on a graph whose edge targets all lie in the node
set — which the construction guarantees — the missing-dependency loop emits
nothing; the branch is dead code on every workspace. -/
theorem missingDep_dead {allF : List String} :
    ∀ g : List (String × List String), goodGraph g allF →
    missingDepIssues g allF = [] := by
  intro g
  induction g with
  | nil => intro _; rfl
  | cons kv rest ih =>
    intro hg
    show kv.2.filterMap _ ++ rest.flatMap _ = []
    rw [filterMap_missing_nil kv.1 allF kv.2 (hg kv (List.mem_cons_self _ _)),
      List.nil_append]
    exact ih (fun a ha y hy => hg a (List.mem_cons_of_mem _ ha) y hy)

/-- C3: evaluation at the failing input.  A single config artifact whose
content contains an empty nested mapping makes the nesting-depth computation
raise `ValueError` (`max()` of an empty sequence); `calculate_file_metrics`
has no per-file fault isolation, so the exception aborts the entire run
instead of only that artifact's metrics. -/
theorem C3_theorem :
    calcDepth (.map []) 1 = .error .valueError ∧
    calculateFileMetrics wsEmptyNested = .error .valueError ∧
    generateEnhancedReport wsEmptyNested = .error .valueError :=
  ⟨rfl, rfl, rfl⟩

/-- Deduplication by Python equality, as `set()` would produce it when every
element is hashable. -/
def pyDedupPureAux (acc : List Yaml) : List Yaml → List Yaml
  | [] => acc
  | x :: xs => if memPyEq x acc then pyDedupPureAux acc xs else pyDedupPureAux (acc ++ [x]) xs

/-- When every element is hashable, the set construction succeeds and is the
pure deduplication. -/
theorem pySetUpdate_all_hashable : ∀ (l : List Yaml) (acc : List Yaml),
    l.all hashableY = true → pySetUpdate acc l = .ok (pyDedupPureAux acc l) := by
  intro l
  induction l with
  | nil => intro acc _; rfl
  | cons x xs ih =>
    intro acc h
    simp only [List.all_cons, Bool.and_eq_true] at h
    simp only [pySetUpdate, pySetAdd, h.1, if_true, pyDedupPureAux]
    by_cases hm : memPyEq x acc
    · simp only [hm, if_true]
      exact ih acc h.2
    · simp only [hm, if_false]
      exact ih (acc ++ [x]) h.2

/-- C8 counterexample: two config artifacts declare distinct version values
(`{"x": 1}` and `"1.0"`), so the claim requires exactly one consistency
issue; but a dict is unhashable, `set(versions.values())` raises
`TypeError`, and the checker emits nothing. -/
theorem C8_counterexample :
    (versionsOf wsUnhashableVersion).length = 2 ∧
    pyEq (Yaml.map [("x", Yaml.int 1)]) (Yaml.str "1.0") = false ∧
    validateCrossFileConsistency wsUnhashableVersion = .error .typeError :=
  ⟨rfl, rfl, rfl⟩

/-- C8 (amended): provided every declared version value is hashable (a
scalar), the checker succeeds; it emits exactly one issue — medium
severity, auto-fixable, file path `"multiple"`, related files the full list
of version-declaring config artifacts — when more than one distinct version
value exists, and no issue otherwise. -/
theorem C8_theorem (ws : Workspace)
    (h : ((versionsOf ws).map (·.2)).all hashableY = true) :
    validateCrossFileConsistency ws =
      .ok (if 1 < (pyDedupPureAux [] ((versionsOf ws).map (·.2))).length
        then [versionIssue (versionsOf ws)] else []) ∧
    (versionIssue (versionsOf ws)).severity = "medium" ∧
    (versionIssue (versionsOf ws)).auto_fixable = true ∧
    (versionIssue (versionsOf ws)).file_path = "multiple" ∧
    (versionIssue (versionsOf ws)).related_files = (versionsOf ws).map (·.1) := by
  refine ⟨?_, rfl, rfl, rfl, rfl⟩
  simp only [validateCrossFileConsistency, pySetUpdate_all_hashable _ _ h]

/-- C8 witness: two config artifacts with scalar versions `"3.0"` and
`"4.0"`; the hypothesis evaluates by `rfl` and the amended statement yields
the single medium issue. -/
theorem C8_witness :
    validateCrossFileConsistency wsScalarVersions =
      .ok (if 1 < (pyDedupPureAux [] ((versionsOf wsScalarVersions).map (·.2))).length
        then [versionIssue (versionsOf wsScalarVersions)] else []) ∧
    (versionIssue (versionsOf wsScalarVersions)).severity = "medium" ∧
    (versionIssue (versionsOf wsScalarVersions)).auto_fixable = true ∧
    (versionIssue (versionsOf wsScalarVersions)).file_path = "multiple" ∧
    (versionIssue (versionsOf wsScalarVersions)).related_files =
      (versionsOf wsScalarVersions).map (·.1) :=
  C8_theorem wsScalarVersions rfl

/-- Severities any checker can attach to an issue. -/
def sevOK (i : ValidationIssue) : Prop :=
  i.severity = "critical" ∨ i.severity = "high" ∨ i.severity = "medium"

/-- Membership in a successful `eMapM` run comes from some input element. -/
theorem eMapM_mem {α β : Type} (f : α → Except PyErr β) :
    ∀ (l : List α) (ys : List β), eMapM f l = .ok ys → ∀ y ∈ ys, ∃ x ∈ l, f x = .ok y := by
  intro l
  induction l with
  | nil =>
    intro ys h y hy
    injection h with h
    subst h
    cases hy
  | cons x xs ih =>
    intro ys h y hy
    rw [eMapM] at h
    cases hfx : f x with
    | error e => rw [hfx] at h; exact Except.noConfusion h
    | ok y0 =>
      rw [hfx] at h
      cases hrest : eMapM f xs with
      | error e => rw [hrest] at h; exact Except.noConfusion h
      | ok ys0 =>
        rw [hrest] at h
        injection h with h
        subst h
        rcases List.mem_cons.mp hy with h1 | h2
        · exact ⟨x, List.mem_cons_self _ _, by rw [hfx, h1]⟩
        · obtain ⟨x2, hx2, hfx2⟩ := ih ys0 hrest y h2
          exact ⟨x2, List.mem_cons_of_mem _ hx2, hfx2⟩

/-- Every schema-compliance issue is critical, high or medium. -/
theorem schema_sev (ws : Workspace) : ∀ i ∈ validateSchemaCompliance ws, sevOK i := by
  intro i hi
  simp only [validateSchemaCompliance, List.mem_flatMap] at hi
  obtain ⟨a, _, hi⟩ := hi
  split at hi
  · cases hc : a.content with
    | none =>
      rw [hc] at hi
      simp only [List.mem_singleton] at hi
      subst hi
      left; rfl
    | some kvs =>
      rw [hc] at hi
      rcases List.mem_append.mp hi with h | h
      · simp only [List.mem_filterMap] at h
        obtain ⟨rf, _, h⟩ := h
        split at h
        · exact Option.noConfusion h
        · injection h with h
          subst h
          right; left; rfl
      · simp only [List.mem_filterMap] at h
        obtain ⟨ft, _, h⟩ := h
        split at h
        · exact Option.noConfusion h
        · split at h
          · exact Option.noConfusion h
          · injection h with h
            subst h
            right; right; rfl
  · cases hi

/-- Every consistency issue is medium. -/
theorem consistency_sev (ws : Workspace) (l : List ValidationIssue)
    (h : validateCrossFileConsistency ws = .ok l) : ∀ i ∈ l, sevOK i := by
  intro i hi
  simp only [validateCrossFileConsistency] at h
  cases hset : pySetUpdate [] ((versionsOf ws).map (·.2)) with
  | error e => rw [hset] at h; exact Except.noConfusion h
  | ok distinct =>
    rw [hset] at h
    injection h with h
    subst h
    split at hi
    · simp only [List.mem_singleton] at hi
      subst hi
      right; right; rfl
    · cases hi

/-- Every reference-integrity issue is high or medium. -/
theorem reference_sev (ws : Workspace) (l : List ValidationIssue)
    (h : validateReferenceIntegrity ws = .ok l) : ∀ i ∈ l, sevOK i := by
  intro i hi
  rw [validateReferenceIntegrity] at h
  split at h
  · exact Except.noConfusion h
  · rename_i urns hurns
    split at h
    · exact Except.noConfusion h
    · rename_i parts hparts
      injection h with h
      subst h
      rcases List.mem_append.mp hi with h1 | h2
      · simp only [List.mem_flatten] at h1
        obtain ⟨la, hla, hila⟩ := h1
        obtain ⟨a, _, hfa⟩ := eMapM_mem _ _ _ hparts la hla
        simp only [urnIssuesForConfig] at hfa
        obtain ⟨t, _, hft⟩ := eMapM_mem _ _ _ hfa i hila
        cases hfind : findRegistryFilesForUrn ws t with
        | error e => rw [hfind] at hft; exact Except.noConfusion hft
        | ok rel =>
          rw [hfind] at hft
          injection hft with hft
          subst hft
          right; left; rfl
      · simp only [List.mem_flatMap, fileRefIssuesForConfig, List.mem_filterMap] at h2
        obtain ⟨a, _, r, _, hr⟩ := h2
        split at hr
        · exact Option.noConfusion hr
        · injection hr with hr
          subst hr
          right; right; rfl

/-- Every issue produced by the outer cycle loop is high. -/
theorem cycleOuter_sev (g : String → List String) (fuel : Nat) :
    ∀ (nodes : List String) (st : DfsSt), ∀ i ∈ cycleOuter g fuel nodes st, sevOK i := by
  intro nodes
  induction nodes with
  | nil => intro st i hi; cases hi
  | cons n rest ih =>
    intro st i hi
    rw [cycleOuter] at hi
    split at hi
    · exact ih st i hi
    · cases hv : dfsVisit g fuel n st with
      | mk b st2 =>
        rw [hv] at hi
        cases b with
        | true =>
          rcases List.mem_cons.mp hi with h1 | h2
          · subst h1; right; left; rfl
          · exact ih st2 i h2
        | false => exact ih st2 i hi

/-- Every missing-dependency issue is medium. -/
theorem missingDep_sev (g : List (String × List String)) (allF : List String) :
    ∀ i ∈ missingDepIssues g allF, sevOK i := by
  intro i hi
  simp only [missingDepIssues, List.mem_flatMap, List.mem_filterMap] at hi
  obtain ⟨kv, _, d, _, hd⟩ := hi
  split at hd
  · exact Option.noConfusion hd
  · injection hd with hd
    subst hd
    right; right; rfl

/-- Every dependency-graph issue is high or medium. -/
theorem dependency_sev (ws : Workspace) (l : List ValidationIssue)
    (h : validateDependencyGraph ws = .ok l) : ∀ i ∈ l, sevOK i := by
  intro i hi
  simp only [validateDependencyGraph] at h
  cases hg : buildGraphE ws with
  | error e => rw [hg] at h; exact Except.noConfusion h
  | ok g =>
    rw [hg] at h
    injection h with h
    subst h
    rcases List.mem_append.mp hi with h1 | h2
    · exact cycleOuter_sev _ _ _ _ i h1
    · exact missingDep_sev _ _ i h2

/-- Every targeted-spec issue is high. -/
theorem newSpec_sev (ws : Workspace) : ∀ i ∈ newSpecIssues ws, sevOK i := by
  intro i hi
  simp only [newSpecIssues, List.mem_flatMap] at hi
  obtain ⟨name, _, hi⟩ := hi
  split at hi
  · cases hi
  · split at hi
    · split at hi
      · cases hi
      · simp only [List.mem_filterMap] at hi
        obtain ⟨f, _, hf⟩ := hi
        split at hf
        · exact Option.noConfusion hf
        · injection hf with hf
          subst hf
          right; left; rfl
    · cases hi

/-- Every per-index entry issue is medium. -/
theorem entryIndexIssues_sev (path : String) :
    ∀ (i0 : Nat) (es : List Yaml), ∀ i ∈ entryIndexIssues path i0 es, sevOK i := by
  intro i0 es
  induction es generalizing i0 with
  | nil => intro i hi; cases hi
  | cons e rest ih =>
    intro i hi
    cases e
    case map m =>
      simp only [entryIndexIssues, List.nil_append] at hi
      exact ih (i0 + 1) i hi
    all_goals simp only [entryIndexIssues, List.singleton_append] at hi
    all_goals rcases List.mem_cons.mp hi with h1 | h2
    all_goals try (subst h1; right; right; rfl)
    all_goals exact ih (i0 + 1) i h2

/-- Every targeted-registry issue is high or medium. -/
theorem newRegistry_sev (ws : Workspace) : ∀ i ∈ newRegistryIssues ws, sevOK i := by
  intro i hi
  simp only [newRegistryIssues, List.mem_flatMap] at hi
  obtain ⟨name, _, hi⟩ := hi
  split at hi
  · cases hi
  · split at hi
    · split at hi
      · simp only [List.mem_singleton] at hi
        subst hi
        right; left; rfl
      · split at hi
        · exact entryIndexIssues_sev _ _ _ i hi
        · simp only [List.mem_singleton] at hi
          subst hi
          right; left; rfl
    · cases hi

/-- Every per-gate issue is medium. -/
theorem gateIssues_sev (path : String) :
    ∀ (gates : List (String × Yaml)), ∀ i ∈ gateIssues path gates, sevOK i := by
  intro gates
  induction gates with
  | nil => intro i hi; cases hi
  | cons g rest ih =>
    intro i hi
    rw [gateIssues] at hi
    rcases List.mem_append.mp hi with h1 | h2
    · split at h1
      · simp only [gateFieldIssues, List.mem_filterMap] at h1
        obtain ⟨f, _, hf⟩ := h1
        split at hf
        · exact Option.noConfusion hf
        · injection hf with hf
          subst hf
          right; right; rfl
      · simp only [List.mem_singleton] at h1
        subst h1
        right; right; rfl
    · exact ih i h2

/-- Every gate-map issue is high or medium. -/
theorem gatesMap_sev (ws : Workspace) (l : List ValidationIssue)
    (h : gatesMapIssues ws = .ok l) : ∀ i ∈ l, sevOK i := by
  intro i hi
  rw [gatesMapIssues] at h
  split at h
  · injection h with h
    subst h
    cases hi
  · rename_i a hfind
    have hmiss : ∀ j ∈ (["version", "gates", "execution_order"]).filterMap
        (fun f => if mapHasKey f (kvsOf a) then none
          else some ⟨"high", "schema", relConfig "gates.map.yaml", none,
            "gates.map.yaml缺少必需字段: " ++ f, some ("添加 " ++ f ++ " 定义"), true, []⟩),
        sevOK j := by
      intro j hj
      simp only [List.mem_filterMap] at hj
      obtain ⟨f, _, hf⟩ := hj
      split at hf
      · exact Option.noConfusion hf
      · injection hf with hf
        subst hf
        right; left; rfl
    split at h
    · split at h
      · split at h
        · exact Except.noConfusion h
        · rename_i gates hgates
          injection h with h
          subst h
          rcases List.mem_append.mp hi with h1 | h2
          · exact hmiss i h1
          · exact gateIssues_sev _ _ i h2
      · injection h with h
        subst h
        exact hmiss i hi
    · injection h with h
      subst h
      cases hi

/-- Every new-files issue is high or medium. -/
theorem newFiles_sev (ws : Workspace) (l : List ValidationIssue)
    (h : validateNewFiles ws = .ok l) : ∀ i ∈ l, sevOK i := by
  intro i hi
  simp only [validateNewFiles] at h
  cases hg : gatesMapIssues ws with
  | error e => rw [hg] at h; exact Except.noConfusion h
  | ok gl =>
    rw [hg] at h
    injection h with h
    subst h
    rcases List.mem_append.mp hi with h1 | h2
    · rcases List.mem_append.mp h1 with h3 | h4
      · exact newSpec_sev ws i h3
      · exact newRegistry_sev ws i h4
    · exact gatesMap_sev ws gl hg i h2

/-- Every issue any checker emits in a successful collection is critical,
high or medium. -/
theorem collected_sev (ws : Workspace) (l : List ValidationIssue)
    (h : collectedIssues ws = .ok l) : ∀ i ∈ l, sevOK i := by
  intro i hi
  simp only [collectedIssues] at h
  cases h2 : validateCrossFileConsistency ws with
  | error e => rw [h2] at h; exact Except.noConfusion h
  | ok i2 =>
    rw [h2] at h
    cases h3 : validateReferenceIntegrity ws with
    | error e => rw [h3] at h; exact Except.noConfusion h
    | ok i3 =>
      rw [h3] at h
      cases h4 : validateDependencyGraph ws with
      | error e => rw [h4] at h; exact Except.noConfusion h
      | ok i4 =>
        rw [h4] at h
        cases h5 : validateNewFiles ws with
        | error e => rw [h5] at h; exact Except.noConfusion h
        | ok i5 =>
          rw [h5] at h
          injection h with h
          subst h
          rcases List.mem_append.mp hi with ha | hb
          rcases List.mem_append.mp ha with ha | hb2
          rcases List.mem_append.mp ha with ha | hb3
          rcases List.mem_append.mp ha with ha | hb4
          · exact schema_sev ws i ha
          · exact consistency_sev ws i2 h2 i hb4
          · exact reference_sev ws i3 h3 i hb3
          · exact dependency_sev ws i4 h4 i hb2
          · exact newFiles_sev ws i5 h5 i hb

/-- A successful summary computation forces an empty issue list (any
non-empty list hits the dataclass subscript). -/
theorem computeSummary_ok (issues : List ValidationIssue) (s : RunSummary)
    (h : computeSummary issues = .ok s) : issues = [] ∧ s = ⟨0, 0, 0, 0, 0⟩ := by
  cases issues with
  | nil =>
    refine ⟨rfl, ?_⟩
    injection h with h
    rw [← h]
    rfl
  | cons i rest => exact Except.noConfusion h

/-- The clean run's concrete outcome: no issues, one metrics entry, zeroed
summary, pass verdict true. -/
def cleanRun : RunResult :=
  ⟨[], [("controlplane/baseline/config/root.ok.yaml",
    ⟨"controlplane/baseline/config/root.ok.yaml", "config", 4, 0, 0, 15, 100⟩)],
    ⟨0, 0, 0, 0, 0⟩, true⟩

/-- C10 counterexample: a run over `wsTwoVersions` emits exactly one issue,
of severity medium, so the claim requires `passed = 1` (the number of medium
issues) in that run's summary; but the summary computation raises
`TypeError` on any non-empty issue list, the run aborts, and the summary
counters are never computed (they keep their zero initial values). -/
theorem C10_counterexample :
    collectedIssues wsTwoVersions = .ok [versionIssue (versionsOf wsTwoVersions)] ∧
    (versionIssue (versionsOf wsTwoVersions)).severity = "medium" ∧
    generateEnhancedReport wsTwoVersions = .error .typeError ∧
    computeSummary [versionIssue (versionsOf wsTwoVersions)] = .error .typeError :=
  ⟨rfl, rfl, rfl, rfl⟩

/-- C10 (amended): every issue emitted by any checker has severity in
{critical, high, medium} — no checker ever emits a low- or info-severity
issue — and in every run whose summary computation completes the summary's
info counter is 0 and the passed counter equals the number of
medium-severity issues.  (Because the summary subscripts dataclass
instances, it only completes when the run emitted zero issues, where both
sides are 0.) -/
theorem C10_theorem :
    (∀ ws l, collectedIssues ws = .ok l →
      ∀ i ∈ l, i.severity = "critical" ∨ i.severity = "high" ∨ i.severity = "medium") ∧
    (∀ ws r, generateEnhancedReport ws = .ok r →
      r.summary.info = 0 ∧
      r.summary.passed = (r.issues.countP (fun i => i.severity == "medium") : Int)) := by
  constructor
  · exact fun ws l h => collected_sev ws l h
  · intro ws r h
    rw [generateEnhancedReport] at h
    split at h
    · exact Except.noConfusion h
    · rename_i issues hissues
      split at h
      · exact Except.noConfusion h
      · split at h
        · exact Except.noConfusion h
        · rename_i metrics hmetrics s hsum
          injection h with h
          subst h
          obtain ⟨hnil, hs⟩ := computeSummary_ok issues s hsum
          subst hnil
          subst hs
          exact ⟨rfl, rfl⟩

/-- C10 witness: the severity invariant applied to the single issue of the
two-version run, and the summary facts applied to the completing clean run. -/
theorem C10_witness :
    ((versionIssue (versionsOf wsTwoVersions)).severity = "critical" ∨
      (versionIssue (versionsOf wsTwoVersions)).severity = "high" ∨
      (versionIssue (versionsOf wsTwoVersions)).severity = "medium") ∧
    cleanRun.summary.info = 0 ∧
    cleanRun.summary.passed = (cleanRun.issues.countP (fun i => i.severity == "medium") : Int) :=
  ⟨C10_theorem.1 wsTwoVersions [versionIssue (versionsOf wsTwoVersions)] rfl
      (versionIssue (versionsOf wsTwoVersions)) (List.mem_singleton.mpr rfl),
    (C10_theorem.2 wsClean cleanRun rfl).1,
    (C10_theorem.2 wsClean cleanRun rfl).2⟩

/-- Python equality against a string holds exactly for that string. -/
theorem pyEq_str_iff (v : Yaml) (t : String) : pyEq v (.str t) = true ↔ v = .str t := by
  cases v <;> simp [pyEq]

/-- Set membership of a string value is plain list membership. -/
theorem memPyEq_str (t : String) (l : List Yaml) :
    memPyEq (.str t) l = true ↔ Yaml.str t ∈ l := by
  constructor
  · intro h
    simp only [memPyEq, List.any_eq_true] at h
    obtain ⟨y, hy, hpy⟩ := h
    cases y <;> simp [pyEq] at hpy
    subst hpy
    exact hy
  · intro h
    simp only [memPyEq, List.any_eq_true]
    exact ⟨.str t, h, by simp [pyEq]⟩

/-- A successful key lookup implies the key-membership test succeeds. -/
theorem mapGet_some_hasKey {m : List (String × Yaml)} {k : String} {x : Yaml}
    (h : mapGet m k = some x) : mapHasKey k m = true := by
  simp only [mapGet] at h
  cases hf : List.find? (fun kv => kv.1 == k) m with
  | none => rw [hf] at h; exact Option.noConfusion h
  | some kv =>
    have hp := List.find?_some hf
    simp only [mapHasKey, List.any_eq_true]
    exact ⟨kv, List.mem_of_find?_eq_some hf, hp⟩

/-- A successful lookup on an artifact's mapping implies the artifact is
truthy. -/
theorem mapGet_some_truthy {a : Artifact} {k : String} {x : Yaml}
    (h : mapGet (kvsOf a) k = some x) : truthy a = true := by
  cases hc : a.content with
  | none => simp [kvsOf, hc, mapGet] at h
  | some kvs =>
    cases kvs with
    | nil => simp [kvsOf, hc, mapGet] at h
    | cons kv rest => simp [truthy, hc]

/-- Elements of `dedupStrAux` come from the input or the accumulator. -/
theorem dedupStrAux_mem : ∀ (l acc : List String) (x : String),
    x ∈ dedupStrAux l acc ↔ x ∈ l ∨ x ∈ acc := by
  intro l
  induction l with
  | nil => intro acc x; simp [dedupStrAux]
  | cons y ys ih =>
    intro acc x
    rw [dedupStrAux]
    split
    · rw [ih]
      constructor
      · rintro (h | h)
        · exact Or.inl (List.mem_cons_of_mem _ h)
        · exact Or.inr h
      · rintro (h | h)
        · rcases List.mem_cons.mp h with h1 | h2
          · subst h1
            right
            assumption
          · exact Or.inl h2
        · exact Or.inr h
    · rw [ih]
      constructor
      · rintro (h | h)
        · exact Or.inl (List.mem_cons_of_mem _ h)
        · rcases List.mem_cons.mp h with h1 | h2
          · exact Or.inl (h1 ▸ List.mem_cons_self _ _)
          · exact Or.inr h2
      · rintro (h | h)
        · rcases List.mem_cons.mp h with h1 | h2
          · exact Or.inr (h1 ▸ List.mem_cons_self _ _)
          · exact Or.inl h2
        · exact Or.inr (List.mem_cons_of_mem _ h)

/-- Membership in a Python `set()` of strings is membership in the input. -/
theorem dedupStr_mem (l : List String) (x : String) : x ∈ dedupStr l ↔ x ∈ l := by
  rw [dedupStr, dedupStrAux_mem]
  simp

/-- `dedupStrAux` keeps the accumulator duplicate-free. -/
theorem dedupStrAux_nodup : ∀ (l acc : List String), acc.Nodup → (dedupStrAux l acc).Nodup := by
  intro l
  induction l with
  | nil => intro acc h; simpa [dedupStrAux] using h
  | cons y ys ih =>
    intro acc h
    rw [dedupStrAux]
    split
    · exact ih acc h
    · exact ih (y :: acc) (List.nodup_cons.mpr ⟨by assumption, h⟩)

/-- A Python string `set()` has no duplicates. -/
theorem dedupStr_nodup (l : List String) : (dedupStr l).Nodup :=
  dedupStrAux_nodup l [] List.nodup_nil

/-- `pySetAdd` only grows the set. -/
theorem pySetAdd_sub {s s2 : List Yaml} {x : Yaml} (h : pySetAdd s x = .ok s2) :
    ∀ y ∈ s, y ∈ s2 := by
  intro y hy
  simp only [pySetAdd] at h
  split at h
  · injection h with h
    subst h
    split
    · exact hy
    · exact List.mem_append_left _ hy
  · exact Except.noConfusion h

/-- Adding a string value makes it a member of the result. -/
theorem pySetAdd_mem_str {s s2 : List Yaml} {t : String} (h : pySetAdd s (.str t) = .ok s2) :
    Yaml.str t ∈ s2 := by
  simp only [pySetAdd, hashableY, if_true] at h
  injection h with h
  subst h
  split
  · rename_i hmem
    exact (memPyEq_str t s).mp hmem
  · exact List.mem_append_right _ (List.mem_singleton.mpr rfl)

/-- One authority step only grows the set. -/
theorem urnAddOfEntry_sub {acc acc2 : List Yaml} {e : Yaml}
    (h : urnAddOfEntry acc e = .ok acc2) : ∀ y ∈ acc, y ∈ acc2 := by
  intro y hy
  rw [urnAddOfEntry] at h
  split at h
  · exact Except.noConfusion h
  · split at h
    · split at h
      · exact Except.noConfusion h
      · exact pySetAdd_sub h y hy
    · injection h with h
      subst h
      exact hy

/-- The authority fold over one file's entries only grows the set. -/
theorem urnAddOfEntries_sub : ∀ (es : List Yaml) (acc acc2 : List Yaml),
    urnAddOfEntries acc es = .ok acc2 → ∀ y ∈ acc, y ∈ acc2 := by
  intro es
  induction es with
  | nil =>
    intro acc acc2 h y hy
    injection h with h
    subst h
    exact hy
  | cons e rest ih =>
    intro acc acc2 h y hy
    rw [urnAddOfEntries] at h
    split at h
    · exact Except.noConfusion h
    · rename_i acc1 h1
      exact ih acc1 acc2 h y (urnAddOfEntry_sub h1 y hy)

/-- The authority fold over the registry files only grows the set. -/
theorem availableUrnsAux_sub : ∀ (arts : List Artifact) (acc out : List Yaml),
    availableUrnsAux acc arts = .ok out → ∀ y ∈ acc, y ∈ out := by
  intro arts
  induction arts with
  | nil =>
    intro acc out h y hy
    injection h with h
    subst h
    exact hy
  | cons a rest ih =>
    intro acc out h y hy
    rw [availableUrnsAux] at h
    by_cases hc : (truthy a && mapHasKey "entries" (kvsOf a)) = true
    · rw [if_pos hc] at h
      cases hiter : pyIterList ((mapGet (kvsOf a) "entries").getD .null) with
      | error e => simp only [hiter] at h; exact Except.noConfusion h
      | ok es =>
        simp only [hiter] at h
        cases hadd : urnAddOfEntries acc es with
        | error e => simp only [hadd] at h; exact Except.noConfusion h
        | ok acc2 =>
          simp only [hadd] at h
          exact ih acc2 out h y (urnAddOfEntries_sub es acc acc2 hadd y hy)
    · rw [if_neg hc] at h
      exact ih acc out h y hy

/-- A declared URN string of a processed entry ends up in the authority
fold's output. -/
theorem urnAddOfEntries_mem : ∀ (es : List Yaml) (acc acc2 : List Yaml)
    (m : List (String × Yaml)) (t : String),
    Yaml.map m ∈ es → mapGet m "urn" = some (.str t) →
    urnAddOfEntries acc es = .ok acc2 → Yaml.str t ∈ acc2 := by
  intro es
  induction es with
  | nil =>
    intro acc acc2 m t hm _ _
    cases hm
  | cons e rest ih =>
    intro acc acc2 m t hm hget h
    rw [urnAddOfEntries] at h
    split at h
    · exact Except.noConfusion h
    · rename_i acc1 h1
      rcases List.mem_cons.mp hm with h2 | h2
      · subst h2
        rw [urnAddOfEntry] at h1
        simp only [pyInStr] at h1
        rw [if_pos (mapGet_some_hasKey hget)] at h1
        simp only [pyGetItemStr, hget] at h1
        have hmem := pySetAdd_mem_str h1
        exact urnAddOfEntries_sub rest acc1 acc2 h _ hmem
      · exact ih acc1 acc2 m t h2 hget h

/-- Claim-side notion: the registry artifact contains an entry whose `urn`
field equals the token. -/
def registryDeclaresUrn (a : Artifact) (t : String) : Bool :=
  match mapGet (kvsOf a) "entries" with
  | some (.seq es) =>
    es.any (fun e =>
      match e with
      | .map m =>
        match mapGet m "urn" with
        | some v => pyEq v (.str t)
        | none => false
      | _ => false)
  | _ => false

/-- Any URN declared by a processed registry artifact is in the collected
authority set. -/
theorem declared_mem : ∀ (arts : List Artifact) (acc out : List Yaml),
    availableUrnsAux acc arts = .ok out →
    ∀ a ∈ arts, ∀ t : String, registryDeclaresUrn a t = true → Yaml.str t ∈ out := by
  intro arts
  induction arts with
  | nil =>
    intro acc out _ a ha
    cases ha
  | cons a0 rest ih =>
    intro acc out h a ha t hdecl
    rw [availableUrnsAux] at h
    rcases List.mem_cons.mp ha with heq | hmem
    · subst heq
      rw [registryDeclaresUrn] at hdecl
      cases hget : mapGet (kvsOf a) "entries" with
      | none => rw [hget] at hdecl; exact Bool.noConfusion hdecl
      | some ev =>
        cases ev with
        | seq es =>
          rw [hget] at hdecl
          simp only [List.any_eq_true] at hdecl
          obtain ⟨e, he, hmatch⟩ := hdecl
          cases e with
          | map m =>
            cases hv : mapGet m "urn" with
            | none => simp only [hv] at hmatch; exact Bool.noConfusion hmatch
            | some v =>
              simp only [hv] at hmatch
              have hvt : v = .str t := (pyEq_str_iff v t).mp hmatch
              subst hvt
              have hcond : (truthy a && mapHasKey "entries" (kvsOf a)) = true := by
                rw [Bool.and_eq_true]
                exact ⟨mapGet_some_truthy hget, mapGet_some_hasKey hget⟩
              rw [if_pos hcond] at h
              rw [hget] at h
              simp only [Option.getD, pyIterList] at h
              cases hadd : urnAddOfEntries acc es with
              | error e2 => simp only [hadd] at h; exact Except.noConfusion h
              | ok acc2 =>
                simp only [hadd] at h
                have hmem2 := urnAddOfEntries_mem es acc acc2 m t he hv hadd
                exact availableUrnsAux_sub rest acc2 out h _ hmem2
          | null => simp at hmatch
          | bool b => simp at hmatch
          | int n => simp at hmatch
          | str s => simp at hmatch
          | seq l => simp at hmatch
        | null => rw [hget] at hdecl; exact Bool.noConfusion hdecl
        | bool b => rw [hget] at hdecl; exact Bool.noConfusion hdecl
        | int n => rw [hget] at hdecl; exact Bool.noConfusion hdecl
        | str s => rw [hget] at hdecl; exact Bool.noConfusion hdecl
        | map m2 => rw [hget] at hdecl; exact Bool.noConfusion hdecl
    · by_cases hc : (truthy a0 && mapHasKey "entries" (kvsOf a0)) = true
      · rw [if_pos hc] at h
        cases hiter : pyIterList ((mapGet (kvsOf a0) "entries").getD .null) with
        | error e => simp only [hiter] at h; exact Except.noConfusion h
        | ok es2 =>
          simp only [hiter] at h
          cases hadd : urnAddOfEntries acc es2 with
          | error e => simp only [hadd] at h; exact Except.noConfusion h
          | ok acc2 =>
            simp only [hadd] at h
            exact ih acc2 out h a hmem t hdecl
      · rw [if_neg hc] at h
        exact ih acc out h a hmem t hdecl

/-- A hit of the per-file URN scan comes from a dict entry whose `urn`
value Python-equals the token. -/
theorem findHit_exists : ∀ (es : List Yaml) (t : String),
    findHitInEntries t es = .ok true →
    ∃ m v, Yaml.map m ∈ es ∧ mapGet m "urn" = some v ∧ pyEq v (.str t) = true := by
  intro es
  induction es with
  | nil =>
    intro t h
    injection h with h
    exact Bool.noConfusion h
  | cons e rest ih =>
    intro t h
    rw [findHitInEntries] at h
    cases hq : entryGetUrnEq t e with
    | error e2 => simp only [hq] at h; exact Except.noConfusion h
    | ok b =>
      simp only [hq] at h
      cases b with
      | true =>
        rw [entryGetUrnEq] at hq
        cases e with
        | map m =>
          simp only [pyGetAttrGet] at hq
          injection hq with hq
          cases hget : mapGet m "urn" with
          | none =>
            rw [hget] at hq
            simp only [Option.getD, pyEq] at hq
            exact Bool.noConfusion hq
          | some v =>
            rw [hget] at hq
            simp only [Option.getD] at hq
            exact ⟨m, v, List.mem_cons_self _ _, hget, hq⟩
        | null => simp [pyGetAttrGet] at hq
        | bool b2 => simp [pyGetAttrGet] at hq
        | int n => simp [pyGetAttrGet] at hq
        | str s => simp [pyGetAttrGet] at hq
        | seq l => simp [pyGetAttrGet] at hq
      | false =>
        rw [if_neg Bool.false_ne_true] at h
        obtain ⟨m, v, hm, hget, hpy⟩ := ih t h
        exact ⟨m, v, List.mem_cons_of_mem _ hm, hget, hpy⟩

/-- A dict member of an iterated entries value forces the value to be a
sequence with that member. -/
theorem iter_map_mem {v : Yaml} {es : List Yaml} {m : List (String × Yaml)}
    (hiter : pyIterList v = .ok es) (hm : Yaml.map m ∈ es) :
    ∃ es0, v = .seq es0 ∧ Yaml.map m ∈ es0 := by
  cases v with
  | seq es0 =>
    injection hiter with hiter
    subst hiter
    exact ⟨es0, rfl, hm⟩
  | map kvs =>
    injection hiter with hiter
    subst hiter
    simp only [List.mem_map] at hm
    obtain ⟨kv, _, hkv⟩ := hm
    exact Yaml.noConfusion hkv
  | str s =>
    injection hiter with hiter
    subst hiter
    simp only [List.mem_map] at hm
    obtain ⟨c, _, hc⟩ := hm
    exact Yaml.noConfusion hc
  | null => exact Except.noConfusion hiter
  | bool b => exact Except.noConfusion hiter
  | int n => exact Except.noConfusion hiter

/-- When the token is absent from a successfully collected authority set,
the registry scan over the same files finds no declaring file. -/
theorem findRegistryAux_nil : ∀ (regs : List Artifact) (t : String) (acc out : List Yaml)
    (rel : List String),
    availableUrnsAux acc regs = .ok out →
    Yaml.str t ∉ out →
    findRegistryFilesAux t regs = .ok rel → rel = [] := by
  intro regs
  induction regs with
  | nil =>
    intro t acc out rel _ _ hf
    injection hf with hf
    exact hf.symm
  | cons a rest ih =>
    intro t acc out rel ha hnot hf
    rw [availableUrnsAux] at ha
    rw [findRegistryFilesAux] at hf
    by_cases hc : (truthy a && mapHasKey "entries" (kvsOf a)) = true
    · rw [if_pos hc] at ha hf
      cases hiter : pyIterList ((mapGet (kvsOf a) "entries").getD .null) with
      | error e => simp only [hiter] at ha; exact Except.noConfusion ha
      | ok es =>
        simp only [hiter] at ha hf
        cases hadd : urnAddOfEntries acc es with
        | error e => simp only [hadd] at ha; exact Except.noConfusion ha
        | ok acc2 =>
          simp only [hadd] at ha
          cases hhit : findHitInEntries t es with
          | error e => simp only [hhit] at hf; exact Except.noConfusion hf
          | ok hit =>
            simp only [hhit] at hf
            cases hfr : findRegistryFilesAux t rest with
            | error e => simp only [hfr] at hf; exact Except.noConfusion hf
            | ok files =>
              simp only [hfr] at hf
              cases hit with
              | true =>
                obtain ⟨m, v, hm, hget, hpy⟩ := findHit_exists es t hhit
                have hvt : v = .str t := (pyEq_str_iff v t).mp hpy
                subst hvt
                have hmem := urnAddOfEntries_mem es acc acc2 m t hm hget hadd
                have := availableUrnsAux_sub rest acc2 out ha _ hmem
                exact absurd this hnot
              | false =>
                injection hf with hf
                subst hf
                exact ih t acc2 out files ha hnot hfr
    · rw [if_neg hc] at ha hf
      exact ih t acc out rel ha hnot hf

/-- A successful `eMapM` run maps every input element to some output
element. -/
theorem eMapM_mem_forward {α β : Type} (f : α → Except PyErr β) :
    ∀ (l : List α) (ys : List β), eMapM f l = .ok ys → ∀ x ∈ l, ∃ y ∈ ys, f x = .ok y := by
  intro l
  induction l with
  | nil =>
    intro ys _ x hx
    cases hx
  | cons x0 xs ih =>
    intro ys h x hx
    rw [eMapM] at h
    cases hfx : f x0 with
    | error e => rw [hfx] at h; exact Except.noConfusion h
    | ok y0 =>
      rw [hfx] at h
      cases hrest : eMapM f xs with
      | error e => rw [hrest] at h; exact Except.noConfusion h
      | ok ys0 =>
        rw [hrest] at h
        injection h with h
        subst h
        rcases List.mem_cons.mp hx with h1 | h2
        · subst h1
          exact ⟨y0, List.mem_cons_self _ _, hfx⟩
        · obtain ⟨y, hy, hfy⟩ := ih ys0 hrest x h2
          exact ⟨y, List.mem_cons_of_mem _ hy, hfy⟩

/-- Counting over a successful `eMapM` image with a pointwise-transported
predicate. -/
theorem eMapM_countP {α β : Type} (f : α → Except PyErr β) (p : β → Bool) (q : α → Bool)
    (hpq : ∀ x y, f x = .ok y → p y = q x) :
    ∀ (l : List α) (ys : List β), eMapM f l = .ok ys → ys.countP p = l.countP q := by
  intro l
  induction l with
  | nil =>
    intro ys h
    injection h with h
    subst h
    rfl
  | cons x0 xs ih =>
    intro ys h
    rw [eMapM] at h
    cases hfx : f x0 with
    | error e => rw [hfx] at h; exact Except.noConfusion h
    | ok y0 =>
      rw [hfx] at h
      cases hrest : eMapM f xs with
      | error e => rw [hrest] at h; exact Except.noConfusion h
      | ok ys0 =>
        rw [hrest] at h
        injection h with h
        subst h
        rw [List.countP_cons, List.countP_cons, ih ys0 hrest, hpq x0 y0 hfx]

/-- Left-cancellation for string concatenation. -/
theorem strAppend_cancel {p x y : String} (h : p ++ x = p ++ y) : x = y := by
  have h2 : (p ++ x).data = (p ++ y).data := by rw [h]
  rw [String.data_append, String.data_append] at h2
  exact String.ext (List.append_cancel_left h2)

/-- Boolean equality of strings with a common prefix. -/
theorem strAppend_beq (p x y : String) : (p ++ x == p ++ y) = (x == y) := by
  by_cases h : x = y
  · subst h
    simp
  · have h2 : p ++ x ≠ p ++ y := fun hc => h (strAppend_cancel hc)
    simp [h, h2]

/-- The per-(file, token) match predicate of the C9 count. -/
def urnPred (name t : String) (i : ValidationIssue) : Bool :=
  i.severity == "high" && i.file_path == relConfig name &&
    i.message == "引用的URN不存在: " ++ t

/-- Counting the matching issues of one config artifact's URN scan counts
the matching tokens. -/
theorem urnIssues_countP_self (ws : Workspace) (urns : List Yaml) (a : Artifact)
    (la : List ValidationIssue) (t : String)
    (hf : urnIssuesForConfig ws urns a = .ok la) :
    la.countP (urnPred a.name t) =
    ((extractUrns (kvsOf a)).filter (fun t2 => !(memPyEq (.str t2) urns))).countP (· == t) := by
  refine eMapM_countP _ _ _ ?_ _ _ hf
  intro t2 y hy
  cases hfind : findRegistryFilesForUrn ws t2 with
  | error e => rw [hfind] at hy; exact Except.noConfusion hy
  | ok rel =>
    rw [hfind] at hy
    injection hy with hy
    subst hy
    simp only [urnPred, urnIssue]
    rw [strAppend_beq]
    simp

/-- Another config artifact's URN issues never match the predicate. -/
theorem urnIssues_countP_other (ws : Workspace) (urns : List Yaml) (b : Artifact)
    (lb : List ValidationIssue) (name t : String) (hne : b.name ≠ name)
    (hf : urnIssuesForConfig ws urns b = .ok lb) :
    lb.countP (urnPred name t) = 0 := by
  rw [List.countP_eq_zero]
  intro i hi
  obtain ⟨t2, _, hft⟩ := eMapM_mem _ _ _ hf i hi
  cases hfind : findRegistryFilesForUrn ws t2 with
  | error e => rw [hfind] at hft; exact Except.noConfusion hft
  | ok rel =>
    rw [hfind] at hft
    injection hft with hft
    subst hft
    simp only [urnPred, urnIssue]
    have : relConfig b.name ≠ relConfig name := by
      intro hc
      exact hne (strAppend_cancel hc)
    simp [this]

/-- Config artifacts whose names all differ from the target contribute no
matching issue. -/
theorem flatten_countP_zero (ws : Workspace) (urns : List Yaml) (name t : String) :
    ∀ (configs : List Artifact) (parts : List (List ValidationIssue)),
    eMapM (urnIssuesForConfig ws urns) configs = .ok parts →
    (∀ b ∈ configs, b.name ≠ name) →
    parts.flatten.countP (urnPred name t) = 0 := by
  intro configs
  induction configs with
  | nil =>
    intro parts h _
    injection h with h
    subst h
    rfl
  | cons b rest ih =>
    intro parts h hne
    rw [eMapM] at h
    cases hfb : urnIssuesForConfig ws urns b with
    | error e => rw [hfb] at h; exact Except.noConfusion h
    | ok lb =>
      rw [hfb] at h
      cases hrest : eMapM (urnIssuesForConfig ws urns) rest with
      | error e => rw [hrest] at h; exact Except.noConfusion h
      | ok parts0 =>
        rw [hrest] at h
        injection h with h
        subst h
        rw [List.flatten_cons, List.countP_append,
          urnIssues_countP_other ws urns b lb name t (hne b (List.mem_cons_self _ _)) hfb,
          ih parts0 hrest (fun c hc => hne c (List.mem_cons_of_mem _ hc))]

/-- With distinct config names, the target artifact's matching-issue count
carries over to the flattened URN-issue list. -/
theorem flatten_countP_one (ws : Workspace) (urns : List Yaml) (a : Artifact) (t : String) :
    ∀ (configs : List Artifact) (parts : List (List ValidationIssue)),
    eMapM (urnIssuesForConfig ws urns) configs = .ok parts →
    (configs.map Artifact.name).Nodup →
    a ∈ configs →
    (∀ la, urnIssuesForConfig ws urns a = .ok la → la.countP (urnPred a.name t) = 1) →
    parts.flatten.countP (urnPred a.name t) = 1 := by
  intro configs
  induction configs with
  | nil =>
    intro parts _ _ ha
    cases ha
  | cons b rest ih =>
    intro parts h hnodup ha hone
    rw [eMapM] at h
    cases hfb : urnIssuesForConfig ws urns b with
    | error e => rw [hfb] at h; exact Except.noConfusion h
    | ok lb =>
      rw [hfb] at h
      cases hrest : eMapM (urnIssuesForConfig ws urns) rest with
      | error e => rw [hrest] at h; exact Except.noConfusion h
      | ok parts0 =>
        rw [hrest] at h
        injection h with h
        subst h
        rw [List.map_cons] at hnodup
        obtain ⟨hbni, hnd⟩ := List.nodup_cons.mp hnodup
        rw [List.flatten_cons, List.countP_append]
        rcases List.mem_cons.mp ha with heq | hmem
        · subst heq
          rw [hone lb hfb,
            flatten_countP_zero ws urns a.name t rest parts0 hrest
              (fun c hc hcn => hbni (hcn ▸ List.mem_map_of_mem Artifact.name hc))]
        · have hne : b.name ≠ a.name := by
            intro hbn
            exact hbni (hbn ▸ List.mem_map_of_mem Artifact.name hmem)
          rw [urnIssues_countP_other ws urns b lb a.name t hne hfb,
            ih parts0 hrest hnd hmem hone]

/-- File-reference issues are medium-severity and never match the
high-severity URN predicate. -/
theorem fileRef_countP_zero (ws : Workspace) (name t : String) (configs : List Artifact) :
    (configs.flatMap (fileRefIssuesForConfig ws)).countP (urnPred name t) = 0 := by
  rw [List.countP_eq_zero]
  intro i hi
  rw [List.mem_flatMap] at hi
  obtain ⟨c, _, hic⟩ := hi
  rw [fileRefIssuesForConfig, List.mem_filterMap] at hic
  obtain ⟨r, _, hr⟩ := hic
  by_cases hex : r ∈ ws.existingPaths
  · rw [if_pos hex] at hr
    exact Option.noConfusion hr
  · rw [if_neg hex] at hr
    injection hr with hr
    subst hr
    simp [urnPred, fileRefIssue]

/-- The filtered token list counts the missing token exactly once. -/
theorem urnTokens_count_one (urns : List Yaml) (a : Artifact) (t : String)
    (ht : t ∈ extractUrns (kvsOf a)) (hmiss : memPyEq (.str t) urns = false) :
    ((extractUrns (kvsOf a)).filter (fun t2 => !(memPyEq (.str t2) urns))).countP (· == t)
      = 1 := by
  have h0 : (extractUrns (kvsOf a)).Nodup := dedupStr_nodup _
  have hnd : ((extractUrns (kvsOf a)).filter
      (fun t2 => !(memPyEq (.str t2) urns))).Nodup := h0.filter _
  have hm : t ∈ (extractUrns (kvsOf a)).filter (fun t2 => !(memPyEq (.str t2) urns)) :=
    List.mem_filter.mpr ⟨ht, by rw [hmiss]; rfl⟩
  simpa [List.count] using List.count_eq_one_of_mem hnd hm

/-- C9: for every config artifact and every URN-shaped token extracted from
its serialized content that is not in the authority set of URNs declared in
registry entries, the Reference Resolver emits one high-severity
unresolved-URN issue whose related-files list is the registry artifacts
declaring that URN — in particular the empty list when no registry declares
it (stated here for workspaces whose truthy config artifacts have pairwise
distinct names, so "one issue" is an exact count). -/
theorem C9_theorem (ws : Workspace) (issues : List ValidationIssue) (urns : List Yaml)
    (a : Artifact) (t : String)
    (hrun : validateReferenceIntegrity ws = .ok issues)
    (hurns : availableUrnsE ws = .ok urns)
    (hnodup : (((configGlob ws).filter truthy).map Artifact.name).Nodup)
    (ha : a ∈ (configGlob ws).filter truthy)
    (ht : t ∈ extractUrns (kvsOf a))
    (hmiss : memPyEq (.str t) urns = false) :
    findRegistryFilesForUrn ws t = .ok [] ∧
    urnIssue a.name t [] ∈ issues ∧
    issues.countP (urnPred a.name t) = 1 ∧
    ∀ r ∈ registryGlob ws, registryDeclaresUrn r t = false := by
  have hnot : Yaml.str t ∉ urns := by
    intro hm
    rw [(memPyEq_str t urns).mpr hm] at hmiss
    exact Bool.noConfusion hmiss
  have hurns2 : availableUrnsAux [] (registryGlob ws) = .ok urns := hurns
  rw [validateReferenceIntegrity] at hrun
  cases hE : availableUrnsE ws with
  | error e =>
    rw [hE] at hurns
    exact Except.noConfusion hurns
  | ok urns0 =>
    simp only [hE] at hrun
    rw [hE] at hurns
    injection hurns with hu
    subst hu
    cases hM : eMapM (urnIssuesForConfig ws urns0) ((configGlob ws).filter truthy) with
    | error e =>
      simp only [hM] at hrun
      exact Except.noConfusion hrun
    | ok parts =>
      simp only [hM] at hrun
      injection hrun with hi
      subst hi
      obtain ⟨la, hla, hfa⟩ := eMapM_mem_forward _ _ _ hM a ha
      have hfa2 : eMapM (fun t2 =>
          match findRegistryFilesForUrn ws t2 with
          | .error e => .error e
          | .ok rel => .ok (urnIssue a.name t2 rel))
          ((extractUrns (kvsOf a)).filter (fun t2 => !(memPyEq (.str t2) urns0)))
          = .ok la := hfa
      have htf : t ∈ (extractUrns (kvsOf a)).filter
          (fun t2 => !(memPyEq (.str t2) urns0)) :=
        List.mem_filter.mpr ⟨ht, by rw [hmiss]; rfl⟩
      obtain ⟨y, hy, hfy⟩ := eMapM_mem_forward _ _ _ hfa2 t htf
      cases hfind : findRegistryFilesForUrn ws t with
      | error e =>
        simp only [hfind] at hfy
        exact Except.noConfusion hfy
      | ok rel =>
        simp only [hfind] at hfy
        injection hfy with hfy
        have hfind2 : findRegistryFilesAux t (registryGlob ws) = .ok rel := hfind
        have hrel : rel = [] :=
          findRegistryAux_nil (registryGlob ws) t [] urns0 rel hurns2 hnot hfind2
        subst hrel
        have hone : ∀ la2, urnIssuesForConfig ws urns0 a = .ok la2 →
            la2.countP (urnPred a.name t) = 1 := by
          intro la2 h2
          rw [urnIssues_countP_self ws urns0 a la2 t h2]
          exact urnTokens_count_one urns0 a t ht hmiss
        refine ⟨rfl, ?_, ?_, ?_⟩
        · rw [← hfy] at hy
          exact List.mem_append_left _ (List.mem_flatten.mpr ⟨la, hla, hy⟩)
        · rw [List.countP_append,
            fileRef_countP_zero ws a.name t ((configGlob ws).filter truthy),
            flatten_countP_one ws urns0 a t ((configGlob ws).filter truthy) parts
              hM hnodup ha hone]
        · intro r hr
          cases hd : registryDeclaresUrn r t with
          | false => rfl
          | true =>
            exact absurd (declared_mem (registryGlob ws) [] urns0 hurns2 r hr t hd) hnot

theorem C9_witness :
    findRegistryFilesForUrn wsUrnScenario "urn:device:sensor-2" = .ok [] ∧
    urnIssue "root.app.yaml" "urn:device:sensor-2" [] ∈
      [urnIssue "root.app.yaml" "urn:device:sensor-2" []] ∧
    List.countP (urnPred "root.app.yaml" "urn:device:sensor-2")
      [urnIssue "root.app.yaml" "urn:device:sensor-2" []] = 1 ∧
    ∀ r ∈ registryGlob wsUrnScenario,
      registryDeclaresUrn r "urn:device:sensor-2" = false :=
  C9_theorem wsUrnScenario [urnIssue "root.app.yaml" "urn:device:sensor-2" []]
    [Yaml.str "urn:device:sensor-1"]
    ⟨"root.app.yaml", some [("ref", Yaml.str "urn:device:sensor-2")]⟩
    "urn:device:sensor-2" rfl rfl (by decide)
    (by
      rw [show (configGlob wsUrnScenario).filter truthy =
        [(⟨"root.app.yaml", some [("ref", Yaml.str "urn:device:sensor-2")]⟩ : Artifact)]
        from rfl]
      exact List.mem_cons_self _ _)
    (by decide) rfl

/-- A neighbour scan only grows `visited` and only grows `recStack` on
elements already visited. -/
theorem dfsNbrs_pres (visit : String → DfsSt → Bool × DfsSt)
    (hvisit : ∀ n st r st2, visit n st = (r, st2) → n ∉ st.visited →
      ∀ x, x ∈ st.visited → x ∈ st2.visited ∧ (x ∈ st.recStack → x ∈ st2.recStack)) :
    ∀ (l : List String) (st : DfsSt) (r : Bool) (st2 : DfsSt),
    dfsNbrs visit l st = (r, st2) →
    ∀ x, x ∈ st.visited → x ∈ st2.visited ∧ (x ∈ st.recStack → x ∈ st2.recStack) := by
  intro l
  induction l with
  | nil =>
    intro st r st2 h x hx
    rw [dfsNbrs] at h
    injection h with _ h2
    subst h2
    exact ⟨hx, fun hr => hr⟩
  | cons nb rest ih =>
    intro st r st2 h x hx
    rw [dfsNbrs] at h
    by_cases h1 : nb ∈ st.visited
    · rw [if_pos h1] at h
      by_cases h2 : nb ∈ st.recStack
      · rw [if_pos h2] at h
        injection h with _ hb
        subst hb
        exact ⟨hx, fun hr => hr⟩
      · rw [if_neg h2] at h
        exact ih st r st2 h x hx
    · rw [if_neg h1] at h
      cases hv : visit nb st with
      | mk rv stv =>
        cases rv with
        | true =>
          simp only [hv] at h
          injection h with _ hb
          subst hb
          exact hvisit nb st true stv hv h1 x hx
        | false =>
          simp only [hv] at h
          have hx2 := hvisit nb st false stv hv h1 x hx
          have hx3 := ih stv r st2 h x hx2.1
          exact ⟨hx3.1, fun hr => hx3.2 (hx2.2 hr)⟩

/-- A DFS visit only grows `visited` and, for already visited elements,
preserves `recStack` membership. -/
theorem dfsVisit_pres (g : String → List String) :
    ∀ (k : Nat) (n : String) (st : DfsSt) (r : Bool) (st2 : DfsSt),
    dfsVisit g k n st = (r, st2) → n ∉ st.visited →
    ∀ x, x ∈ st.visited → x ∈ st2.visited ∧ (x ∈ st.recStack → x ∈ st2.recStack) := by
  intro k
  induction k with
  | zero =>
    intro n st r st2 h _ x hx
    rw [dfsVisit] at h
    injection h with _ h2
    subst h2
    exact ⟨hx, fun hr => hr⟩
  | succ k ih =>
    intro n st r st2 h hn x hx
    rw [dfsVisit] at h
    cases hd : dfsNbrs (dfsVisit g k) (g n) ⟨st.visited.insert n, st.recStack.insert n⟩ with
    | mk rd std =>
      have hpres := dfsNbrs_pres (dfsVisit g k) ih
        (g n) ⟨st.visited.insert n, st.recStack.insert n⟩ rd std hd x
        (List.mem_insert_of_mem hx)
      cases rd with
      | true =>
        simp only [hd] at h
        injection h with _ h2
        subst h2
        exact ⟨hpres.1, fun hr => hpres.2 (List.mem_insert_of_mem hr)⟩
      | false =>
        simp only [hd] at h
        injection h with _ h2
        subst h2
        refine ⟨hpres.1, fun hr => ?_⟩
        have hxn : x ≠ n := fun he => hn (he ▸ hx)
        exact (List.mem_erase_of_ne hxn).mpr (hpres.2 (List.mem_insert_of_mem hr))

/-- If a scanned neighbour is visited and on the recursion stack, the scan
reports a cycle. -/
theorem dfsNbrs_true (visit : String → DfsSt → Bool × DfsSt)
    (hvisit : ∀ n st r st2, visit n st = (r, st2) → n ∉ st.visited →
      ∀ x, x ∈ st.visited → x ∈ st2.visited ∧ (x ∈ st.recStack → x ∈ st2.recStack))
    (t : String) :
    ∀ (l : List String) (st : DfsSt), t ∈ l → t ∈ st.visited → t ∈ st.recStack →
    ∃ st2, dfsNbrs visit l st = (true, st2) := by
  intro l
  induction l with
  | nil => intro st ht; cases ht
  | cons nb rest ih =>
    intro st ht htv htr
    rw [dfsNbrs]
    by_cases h1 : nb ∈ st.visited
    · rw [if_pos h1]
      by_cases h2 : nb ∈ st.recStack
      · rw [if_pos h2]
        exact ⟨st, rfl⟩
      · rw [if_neg h2]
        rcases List.mem_cons.mp ht with he | hm
        · subst he
          exact absurd htr h2
        · exact ih st hm htv htr
    · rw [if_neg h1]
      rcases List.mem_cons.mp ht with he | hm
      · subst he
        exact absurd htv h1
      · cases hv : visit nb st with
        | mk rv stv =>
          cases rv with
          | true => exact ⟨stv, by simp only [hv]⟩
          | false =>
            obtain ⟨h3, h4⟩ := hvisit nb st false stv hv h1 t htv
            obtain ⟨st2, hrec⟩ := ih stv hm h3 (h4 htr)
            refine ⟨st2, ?_⟩
            simp only [hv]
            exact hrec

/-- A visit of a node one of whose neighbours is on the recursion stack
reports a cycle. -/
theorem dfsVisit_true (g : String → List String) (t : String) :
    ∀ (k : Nat) (n : String) (st : DfsSt), t ∈ g n → t ∈ st.visited → t ∈ st.recStack →
    ∃ st2, dfsVisit g k n st = (true, st2) := by
  intro k
  cases k with
  | zero =>
    intro n st _ _ _
    exact ⟨st, rfl⟩
  | succ k =>
    intro n st htg htv htr
    rw [dfsVisit]
    obtain ⟨st2, hrec⟩ := dfsNbrs_true (dfsVisit g k) (dfsVisit_pres g k) t (g n)
      ⟨st.visited.insert n, st.recStack.insert n⟩ htg
      (List.mem_insert_of_mem htv) (List.mem_insert_of_mem htr)
    exact ⟨st2, by simp only [hrec]⟩

/-- A false scan started below `a` (still on the recursion stack) never
visits `b`, one of whose edges returns to `a`. -/
theorem dfsNbrs_novisit (visit : String → DfsSt → Bool × DfsSt) (a b : String)
    (hpres : ∀ n st r st2, visit n st = (r, st2) → n ∉ st.visited →
      ∀ x, x ∈ st.visited → x ∈ st2.visited ∧ (x ∈ st.recStack → x ∈ st2.recStack))
    (hnv : ∀ n st st2, visit n st = (false, st2) → n ∉ st.visited →
      a ∈ st.visited → a ∈ st.recStack → b ∉ st.visited → b ∉ st2.visited) :
    ∀ (l : List String) (st st2 : DfsSt),
    dfsNbrs visit l st = (false, st2) →
    a ∈ st.visited → a ∈ st.recStack → b ∉ st.visited → b ∉ st2.visited := by
  intro l
  induction l with
  | nil =>
    intro st st2 h _ _ hbv
    rw [dfsNbrs] at h
    injection h with _ h2
    subst h2
    exact hbv
  | cons nb rest ih =>
    intro st st2 h hav har hbv
    rw [dfsNbrs] at h
    by_cases h1 : nb ∈ st.visited
    · rw [if_pos h1] at h
      by_cases h2 : nb ∈ st.recStack
      · rw [if_pos h2] at h
        injection h with hfalse _
        exact Bool.noConfusion hfalse
      · rw [if_neg h2] at h
        exact ih st st2 h hav har hbv
    · rw [if_neg h1] at h
      cases hv : visit nb st with
      | mk rv stv =>
        cases rv with
        | true =>
          simp only [hv] at h
          injection h with hfalse _
          exact Bool.noConfusion hfalse
        | false =>
          simp only [hv] at h
          have hb3 := hnv nb st stv hv h1 hav har hbv
          obtain ⟨hav3, harp⟩ := hpres nb st false stv hv h1 a hav
          exact ih stv st2 h hav3 (harp har) hb3

/-- A false visit started below `a` (still on the recursion stack) never
visits `b` when `b` has an edge back to `a`. -/
theorem dfsVisit_novisit (g : String → List String) (a b : String) (hba : a ∈ g b) :
    ∀ (k : Nat) (n : String) (st st2 : DfsSt),
    dfsVisit g k n st = (false, st2) → n ∉ st.visited →
    a ∈ st.visited → a ∈ st.recStack → b ∉ st.visited → b ∉ st2.visited := by
  intro k
  induction k with
  | zero =>
    intro n st st2 h
    rw [dfsVisit] at h
    injection h with hfalse _
    exact fun _ _ _ _ => Bool.noConfusion hfalse
  | succ k ih =>
    intro n st st2 h hn hav har hbv
    by_cases hnb : n = b
    · subst hnb
      obtain ⟨st3, htrue⟩ := dfsVisit_true g a (k + 1) n st hba hav har
      rw [htrue] at h
      injection h with hfalse _
      exact Bool.noConfusion hfalse
    · rw [dfsVisit] at h
      cases hd : dfsNbrs (dfsVisit g k) (g n) ⟨st.visited.insert n, st.recStack.insert n⟩ with
      | mk rd std =>
        cases rd with
        | true =>
          simp only [hd] at h
          injection h with hfalse _
          exact Bool.noConfusion hfalse
        | false =>
          simp only [hd] at h
          injection h with _ h2
          subst h2
          exact dfsNbrs_novisit (dfsVisit g k) a b (dfsVisit_pres g k) ih
            (g n) ⟨st.visited.insert n, st.recStack.insert n⟩ std hd
            (List.mem_insert_of_mem hav) (List.mem_insert_of_mem har)
            (by
              intro hmem
              rcases List.mem_insert_iff.mp hmem with he | hm
              · exact hnb he.symm
              · exact hbv hm)

/-- Scanning a list containing `b` from below `a` (on the recursion stack),
with `a` and `b` mutually linked, reports a cycle. -/
theorem dfsNbrs_cycle_true (g : String → List String) (a b : String)
    (hba : a ∈ g b) (k : Nat) :
    ∀ (l : List String) (st : DfsSt), b ∈ l →
    a ∈ st.visited → a ∈ st.recStack → b ∉ st.visited →
    ∃ st2, dfsNbrs (dfsVisit g k) l st = (true, st2) := by
  intro l
  induction l with
  | nil => intro st hb; cases hb
  | cons nb rest ih =>
    intro st hb hav har hbv
    rw [dfsNbrs]
    by_cases h1 : nb ∈ st.visited
    · rw [if_pos h1]
      have hnbb : nb ≠ b := fun he => hbv (he ▸ h1)
      have hbrest : b ∈ rest := by
        rcases List.mem_cons.mp hb with he | hm
        · exact absurd he.symm hnbb
        · exact hm
      by_cases h2 : nb ∈ st.recStack
      · rw [if_pos h2]
        exact ⟨st, rfl⟩
      · rw [if_neg h2]
        exact ih st hbrest hav har hbv
    · rw [if_neg h1]
      by_cases hnbb : nb = b
      · subst hnbb
        obtain ⟨st3, htrue⟩ := dfsVisit_true g a k nb st hba hav har
        exact ⟨st3, by simp only [htrue]⟩
      · have hbrest : b ∈ rest := by
          rcases List.mem_cons.mp hb with he | hm
          · exact absurd he.symm hnbb
          · exact hm
        cases hv : dfsVisit g k nb st with
        | mk rv stv =>
          cases rv with
          | true => exact ⟨stv, by simp only [hv]⟩
          | false =>
            have hb3 := dfsVisit_novisit g a b hba k nb st stv hv h1 hav har hbv
            obtain ⟨hav3, harp⟩ := dfsVisit_pres g k nb st false stv hv h1 a hav
            obtain ⟨st2, hrec⟩ := ih stv hbrest hav3 (harp har) hb3
            refine ⟨st2, ?_⟩
            simp only [hv]
            exact hrec

/-- Visiting `a` while `b` is unvisited, with edges `a → b` and `b → a`,
reports a cycle. -/
theorem dfsVisit_cycle_true (g : String → List String) (a b : String)
    (hab : b ∈ g a) (hba : a ∈ g b) (hne : a ≠ b) :
    ∀ (k : Nat) (st : DfsSt), b ∉ st.visited →
    ∃ st2, dfsVisit g k a st = (true, st2) := by
  intro k
  cases k with
  | zero =>
    intro st _
    exact ⟨st, rfl⟩
  | succ k =>
    intro st hbv
    rw [dfsVisit]
    obtain ⟨st2, hrec⟩ := dfsNbrs_cycle_true g a b hba k (g a)
      ⟨st.visited.insert a, st.recStack.insert a⟩ hab
      (List.mem_insert_self _ _) (List.mem_insert_self _ _)
      (by
        intro hmem
        rcases List.mem_insert_iff.mp hmem with he | hm
        · exact hne he.symm
        · exact hbv hm)
    exact ⟨st2, by simp only [hrec]⟩

/-- A false scan keeps both nodes of a mutual edge pair unvisited. -/
theorem dfsNbrs_both (g : String → List String) (a b : String)
    (hab : b ∈ g a) (hba : a ∈ g b) (hne : a ≠ b) (k : Nat)
    (hnb : ∀ n st st2, dfsVisit g k n st = (false, st2) → n ∉ st.visited →
      a ∉ st.visited → b ∉ st.visited → a ∉ st2.visited ∧ b ∉ st2.visited) :
    ∀ (l : List String) (st st2 : DfsSt),
    dfsNbrs (dfsVisit g k) l st = (false, st2) →
    a ∉ st.visited → b ∉ st.visited → a ∉ st2.visited ∧ b ∉ st2.visited := by
  intro l
  induction l with
  | nil =>
    intro st st2 h hav hbv
    rw [dfsNbrs] at h
    injection h with _ h2
    subst h2
    exact ⟨hav, hbv⟩
  | cons nb rest ih =>
    intro st st2 h hav hbv
    rw [dfsNbrs] at h
    by_cases h1 : nb ∈ st.visited
    · rw [if_pos h1] at h
      by_cases h2 : nb ∈ st.recStack
      · rw [if_pos h2] at h
        injection h with hfalse _
        exact Bool.noConfusion hfalse
      · rw [if_neg h2] at h
        exact ih st st2 h hav hbv
    · rw [if_neg h1] at h
      cases hv : dfsVisit g k nb st with
      | mk rv stv =>
        cases rv with
        | true =>
          simp only [hv] at h
          injection h with hfalse _
          exact Bool.noConfusion hfalse
        | false =>
          simp only [hv] at h
          obtain ⟨hav3, hbv3⟩ := hnb nb st stv hv h1 hav hbv
          exact ih stv st2 h hav3 hbv3

/-- A false visit keeps both nodes of a mutual edge pair unvisited. -/
theorem dfsVisit_both (g : String → List String) (a b : String)
    (hab : b ∈ g a) (hba : a ∈ g b) (hne : a ≠ b) :
    ∀ (k : Nat) (n : String) (st st2 : DfsSt),
    dfsVisit g k n st = (false, st2) → n ∉ st.visited →
    a ∉ st.visited → b ∉ st.visited → a ∉ st2.visited ∧ b ∉ st2.visited := by
  intro k
  induction k with
  | zero =>
    intro n st st2 h
    rw [dfsVisit] at h
    injection h with hfalse _
    exact fun _ _ _ => Bool.noConfusion hfalse
  | succ k ih =>
    intro n st st2 h hn hav hbv
    by_cases hna : n = a
    · subst hna
      obtain ⟨st3, htrue⟩ := dfsVisit_cycle_true g n b hab hba hne (k + 1) st hbv
      rw [htrue] at h
      injection h with hfalse _
      exact Bool.noConfusion hfalse
    · by_cases hnb2 : n = b
      · subst hnb2
        obtain ⟨st3, htrue⟩ := dfsVisit_cycle_true g n a hba hab hne.symm (k + 1) st hav
        rw [htrue] at h
        injection h with hfalse _
        exact Bool.noConfusion hfalse
      · rw [dfsVisit] at h
        cases hd : dfsNbrs (dfsVisit g k) (g n)
            ⟨st.visited.insert n, st.recStack.insert n⟩ with
        | mk rd std =>
          cases rd with
          | true =>
            simp only [hd] at h
            injection h with hfalse _
            exact Bool.noConfusion hfalse
          | false =>
            simp only [hd] at h
            injection h with _ h2
            subst h2
            exact dfsNbrs_both g a b hab hba hne k ih
              (g n) ⟨st.visited.insert n, st.recStack.insert n⟩ std hd
              (by
                intro hmem
                rcases List.mem_insert_iff.mp hmem with he | hm
                · exact hna he.symm
                · exact hav hm)
              (by
                intro hmem
                rcases List.mem_insert_iff.mp hmem with he | hm
                · exact hnb2 he.symm
                · exact hbv hm)

/-- The outer DFS loop reports at least one issue when the node list holds
one node of a mutual edge pair, both still unvisited. -/
theorem cycleOuter_ne_nil (g : String → List String) (a b : String)
    (hab : b ∈ g a) (hba : a ∈ g b) (hne : a ≠ b) (fuel : Nat) :
    ∀ (ns : List String) (st : DfsSt), a ∈ ns →
    a ∉ st.visited → b ∉ st.visited →
    cycleOuter g fuel ns st ≠ [] := by
  intro ns
  induction ns with
  | nil => intro st ha; cases ha
  | cons n rest ih =>
    intro st ha hav hbv
    rw [cycleOuter]
    by_cases h1 : n ∈ st.visited
    · rw [if_pos h1]
      have harest : a ∈ rest := by
        rcases List.mem_cons.mp ha with he | hm
        · exact absurd (he ▸ h1) hav
        · exact hm
      exact ih st harest hav hbv
    · rw [if_neg h1]
      by_cases hna : n = a
      · subst hna
        obtain ⟨st3, htrue⟩ := dfsVisit_cycle_true g n b hab hba hne fuel st hbv
        simp only [htrue]
        exact List.cons_ne_nil _ _
      · by_cases hnb2 : n = b
        · subst hnb2
          obtain ⟨st3, htrue⟩ := dfsVisit_cycle_true g n a hba hab hne.symm fuel st hav
          simp only [htrue]
          exact List.cons_ne_nil _ _
        · cases hv : dfsVisit g fuel n st with
          | mk rv stv =>
            cases rv with
            | true =>
              simp only [hv]
              exact List.cons_ne_nil _ _
            | false =>
              simp only [hv]
              obtain ⟨hav2, hbv2⟩ :=
                dfsVisit_both g a b hab hba hne fuel n st stv hv h1 hav hbv
              have harest : a ∈ rest := by
                rcases List.mem_cons.mp ha with he | hm
                · exact absurd he.symm hna
                · exact hm
              exact ih stv harest hav2 hbv2

/-- Every issue emitted by the outer DFS loop is a high-severity
dependency-category circular-dependency issue. -/
theorem cycleOuter_highdep (g : String → List String) (fuel : Nat) :
    ∀ (ns : List String) (st : DfsSt) (i : ValidationIssue),
    i ∈ cycleOuter g fuel ns st → i.severity = "high" ∧ i.category = "dependency" := by
  intro ns
  induction ns with
  | nil =>
    intro st i hi
    rw [cycleOuter] at hi
    cases hi
  | cons n rest ih =>
    intro st i hi
    rw [cycleOuter] at hi
    by_cases h1 : n ∈ st.visited
    · rw [if_pos h1] at hi
      exact ih st i hi
    · rw [if_neg h1] at hi
      cases hv : dfsVisit g fuel n st with
      | mk rv stv =>
        cases rv with
        | true =>
          simp only [hv] at hi
          rcases List.mem_cons.mp hi with he | hm
          · subst he
            exact ⟨rfl, rfl⟩
          · exact ih stv i hm
        | false =>
          simp only [hv] at hi
          exact ih stv i hi

/-- Number of universe nodes not yet visited: the DFS fuel measure. -/
def unvis (univ v : List String) : Nat :=
  (univ.filter (fun x => decide (x ∉ v))).length

/-- Growing the visited set cannot increase the unvisited count. -/
theorem unvis_mono (univ : List String) {v v2 : List String}
    (h : ∀ x, x ∈ v → x ∈ v2) : unvis univ v2 ≤ unvis univ v :=
  (List.monotone_filter_right univ
    (fun x hx => by
      simp only [decide_eq_true_eq] at hx ⊢
      exact fun hv => hx (h x hv))).length_le

/-- An unvisited universe node witnesses a positive unvisited count. -/
theorem unvis_pos {univ v : List String} {n : String}
    (hnu : n ∈ univ) (hnv : n ∉ v) : 0 < unvis univ v := by
  have hmem : n ∈ univ.filter (fun x => decide (x ∉ v)) :=
    List.mem_filter.mpr ⟨hnu, by simp [hnv]⟩
  exact List.length_pos.mpr (List.ne_nil_of_mem hmem)

/-- Visiting an unvisited universe node strictly decreases the unvisited
count. -/
theorem unvis_insert_lt {v : List String} {n : String} (hnv : n ∉ v) :
    ∀ univ : List String, n ∈ univ → unvis univ (v.insert n) < unvis univ v := by
  intro univ
  induction univ with
  | nil => intro hnu; cases hnu
  | cons x xs ih =>
    intro hnu
    by_cases hx : x = n
    · subst hx
      have e1 : unvis (x :: xs) (v.insert x) = unvis xs (v.insert x) := by
        simp [unvis, List.filter_cons, List.mem_insert_self]
      have e2 : unvis (x :: xs) v = unvis xs v + 1 := by
        simp [unvis, List.filter_cons, hnv]
      rw [e1, e2]
      exact Nat.lt_succ_of_le (unvis_mono xs (fun y hy => List.mem_insert_of_mem hy))
    · have hnxs : n ∈ xs := by
        rcases List.mem_cons.mp hnu with he | hm
        · exact absurd he.symm hx
        · exact hm
      by_cases hxv : x ∈ v
      · have e1 : unvis (x :: xs) (v.insert n) = unvis xs (v.insert n) := by
          simp [unvis, List.filter_cons, hxv]
        have e2 : unvis (x :: xs) v = unvis xs v := by
          simp [unvis, List.filter_cons, hxv]
        rw [e1, e2]
        exact ih hnxs
      · have e1 : unvis (x :: xs) (v.insert n) = unvis xs (v.insert n) + 1 := by
          simp [unvis, List.filter_cons, hx, hxv]
        have e2 : unvis (x :: xs) v = unvis xs v + 1 := by
          simp [unvis, List.filter_cons, hxv]
        rw [e1, e2]
        exact Nat.succ_lt_succ (ih hnxs)

/-- On an acyclic graph, a neighbour scan with enough fuel returns false,
growing `visited` only inside the universe and restoring `recStack`. -/
theorem dfsNbrs_sound (g : String → List String) (univ : List String)
    (hacy : ∀ x : String, ¬ Relation.TransGen (fun u w => w ∈ g u) x x) (k : Nat)
    (hVS : ∀ (n : String) (st : DfsSt), n ∈ univ → n ∉ st.visited →
      unvis univ st.visited ≤ k →
      (∀ r ∈ st.recStack, Relation.ReflTransGen (fun u w => w ∈ g u) r n) →
      (∀ r ∈ st.recStack, r ∈ st.visited) →
      ∃ st2, dfsVisit g k n st = (false, st2) ∧
        (∀ x ∈ st.visited, x ∈ st2.visited) ∧ n ∈ st2.visited ∧
        st2.recStack = st.recStack ∧
        (∀ x ∈ st2.visited, x ∈ st.visited ∨ x ∈ univ)) :
    ∀ (l : List String) (st : DfsSt),
    (∀ nb ∈ l, nb ∈ univ) →
    (∀ nb ∈ l, ∀ r ∈ st.recStack, Relation.TransGen (fun u w => w ∈ g u) r nb) →
    (∀ r ∈ st.recStack, r ∈ st.visited) →
    unvis univ st.visited ≤ k →
    ∃ st2, dfsNbrs (dfsVisit g k) l st = (false, st2) ∧
      (∀ x ∈ st.visited, x ∈ st2.visited) ∧ st2.recStack = st.recStack ∧
      (∀ x ∈ st2.visited, x ∈ st.visited ∨ x ∈ univ) := by
  intro l
  induction l with
  | nil =>
    intro st _ _ _ _
    exact ⟨st, rfl, fun x hx => hx, rfl, fun x hx => Or.inl hx⟩
  | cons nb rest ih =>
    intro st hl hreach hrsub hcnt
    rw [dfsNbrs]
    by_cases h1 : nb ∈ st.visited
    · rw [if_pos h1]
      by_cases h2 : nb ∈ st.recStack
      · exact absurd (hreach nb (List.mem_cons_self _ _) nb h2) (hacy nb)
      · rw [if_neg h2]
        exact ih st (fun x hx => hl x (List.mem_cons_of_mem _ hx))
          (fun x hx => hreach x (List.mem_cons_of_mem _ hx)) hrsub hcnt
    · rw [if_neg h1]
      obtain ⟨st3, hv, hsub3, hnv3, hrs3, hgrow3⟩ := hVS nb st
        (hl nb (List.mem_cons_self _ _)) h1 hcnt
        (fun r hr => (hreach nb (List.mem_cons_self _ _) r hr).to_reflTransGen)
        hrsub
      obtain ⟨st4, hrec, hsub4, hrs4, hgrow4⟩ := ih st3
        (fun x hx => hl x (List.mem_cons_of_mem _ hx))
        (by
          intro x hx r hr
          rw [hrs3] at hr
          exact hreach x (List.mem_cons_of_mem _ hx) r hr)
        (by
          intro r hr
          rw [hrs3] at hr
          exact hsub3 r (hrsub r hr))
        ((unvis_mono univ hsub3).trans hcnt)
      refine ⟨st4, ?_, fun x hx => hsub4 x (hsub3 x hx), hrs4.trans hrs3, ?_⟩
      · simp only [hv]
        exact hrec
      · intro x hx
        rcases hgrow4 x hx with hx3 | hu
        · rcases hgrow3 x hx3 with hxs | hu2
          · exact Or.inl hxs
          · exact Or.inr hu2
        · exact Or.inr hu

/-- On an acyclic graph, a visit with fuel at least the unvisited count
returns false, restoring `recStack` and growing `visited` only inside the
universe. -/
theorem dfsVisit_sound (g : String → List String) (univ : List String)
    (hg : ∀ m x, x ∈ g m → x ∈ univ)
    (hacy : ∀ x : String, ¬ Relation.TransGen (fun u w => w ∈ g u) x x) :
    ∀ (k : Nat) (n : String) (st : DfsSt), n ∈ univ → n ∉ st.visited →
    unvis univ st.visited ≤ k →
    (∀ r ∈ st.recStack, Relation.ReflTransGen (fun u w => w ∈ g u) r n) →
    (∀ r ∈ st.recStack, r ∈ st.visited) →
    ∃ st2, dfsVisit g k n st = (false, st2) ∧
      (∀ x ∈ st.visited, x ∈ st2.visited) ∧ n ∈ st2.visited ∧
      st2.recStack = st.recStack ∧
      (∀ x ∈ st2.visited, x ∈ st.visited ∨ x ∈ univ) := by
  intro k
  induction k with
  | zero =>
    intro n st hnu hnv hcnt _ _
    have hpos := unvis_pos hnu hnv
    exact absurd hcnt (by omega)
  | succ k ih =>
    intro n st hnu hnv hcnt hrec hrsub
    have hnr : n ∉ st.recStack := fun hr => hnv (hrsub n hr)
    have hins : st.recStack.insert n = n :: st.recStack := List.insert_of_not_mem hnr
    obtain ⟨st3, hrec3, hsub3, hrs3, hgrow3⟩ := dfsNbrs_sound g univ hacy k ih
      (g n) ⟨st.visited.insert n, st.recStack.insert n⟩
      (fun nb hnb => hg n nb hnb)
      (by
        intro nb hnb r hr
        rcases List.mem_insert_iff.mp hr with he | hm
        · subst he
          exact Relation.TransGen.single hnb
        · exact Relation.TransGen.tail' (hrec r hm) hnb)
      (by
        intro r hr
        rcases List.mem_insert_iff.mp hr with he | hm
        · subst he
          exact List.mem_insert_self _ _
        · exact List.mem_insert_of_mem (hrsub r hm))
      (by
        show unvis univ (st.visited.insert n) ≤ k
        have hlt := unvis_insert_lt hnv univ hnu
        omega)
    refine ⟨⟨st3.visited, st3.recStack.erase n⟩, ?_, ?_, ?_, ?_, ?_⟩
    · rw [dfsVisit]
      simp only [hrec3]
    · intro x hx
      exact hsub3 x (List.mem_insert_of_mem hx)
    · exact hsub3 n (List.mem_insert_self _ _)
    · show (st3.recStack).erase n = st.recStack
      rw [hrs3]
      show (st.recStack.insert n).erase n = st.recStack
      rw [hins]
      exact List.erase_cons_head _ _
    · intro x hx
      rcases hgrow3 x hx with hx1 | hu
      · rcases List.mem_insert_iff.mp hx1 with he | hm
        · subst he
          exact Or.inr hnu
        · exact Or.inl hm
      · exact Or.inr hu

/-- On an acyclic graph, the outer DFS loop at the fuel used by the
validator emits no issue. -/
theorem cycleOuter_sound (g : String → List String) (univ : List String)
    (hg : ∀ m x, x ∈ g m → x ∈ univ)
    (hacy : ∀ x : String, ¬ Relation.TransGen (fun u w => w ∈ g u) x x) :
    ∀ (ns : List String) (st : DfsSt),
    (∀ x ∈ ns, x ∈ univ) → st.recStack = [] →
    cycleOuter g (univ.length + 1) ns st = [] := by
  intro ns
  induction ns with
  | nil =>
    intro st _ _
    rfl
  | cons n rest ih =>
    intro st hns hrs
    rw [cycleOuter]
    by_cases h1 : n ∈ st.visited
    · rw [if_pos h1]
      exact ih st (fun x hx => hns x (List.mem_cons_of_mem _ hx)) hrs
    · rw [if_neg h1]
      obtain ⟨st2, hv, _, _, hrs2, _⟩ := dfsVisit_sound g univ hg hacy
        (univ.length + 1) n st (hns n (List.mem_cons_self _ _)) h1
        (by
          have hle : unvis univ st.visited ≤ univ.length :=
            List.length_filter_le _ univ
          omega)
        (by
          rw [hrs]
          intro r hr
          cases hr)
        (by
          rw [hrs]
          intro r hr
          cases hr)
      simp only [hv]
      exact ih st2 (fun x hx => hns x (List.mem_cons_of_mem _ hx)) (hrs2.trans hrs)

/-- Every neighbour stored in a well-formed graph is a known node. -/
theorem nbrs_good {gr : List (String × List String)} {allF : List String}
    (hg : goodGraph gr allF) : ∀ m x, x ∈ nbrs gr m → x ∈ allF := by
  intro m x hx
  rw [nbrs] at hx
  cases hf : gr.find? (fun kv => kv.1 == m) with
  | none =>
    rw [hf] at hx
    simp at hx
  | some kv =>
    rw [hf] at hx
    have hkv := List.mem_of_find?_eq_some hf
    refine hg kv hkv x ?_
    simpa using hx

/-- The dependency graph the validator builds for `wsCycleChain`. -/
def gCyc : List (String × List String) :=
  [("root.c.yaml", ["root.a.yaml"]), ("root.a.yaml", ["root.b.yaml"]),
   ("root.b.yaml", ["root.a.yaml"])]

/-- C4 counterexample: on `wsCycleChain` the declared cycle is
`root.a.yaml → root.b.yaml → root.a.yaml`, yet the single reported issue
names `root.c.yaml`, a node with no incoming edge at all, hence on no
cycle — the DFS attributes the cycle to the outer node it happened to start
from, not to a node on the cycle. -/
theorem C4_counterexample :
    buildGraphE wsCycleChain = .ok gCyc ∧
    validateDependencyGraph wsCycleChain = .ok [cycleIssue (nbrs gCyc) "root.c.yaml"] ∧
    (cycleIssue (nbrs gCyc) "root.c.yaml").severity = "high" ∧
    (cycleIssue (nbrs gCyc) "root.c.yaml").category = "dependency" ∧
    (cycleIssue (nbrs gCyc) "root.c.yaml").file_path = "root.c.yaml" ∧
    "root.b.yaml" ∈ nbrs gCyc "root.a.yaml" ∧
    "root.a.yaml" ∈ nbrs gCyc "root.b.yaml" ∧
    (∀ m : String, "root.c.yaml" ∉ nbrs gCyc m) := by
  refine ⟨rfl, rfl, rfl, rfl, rfl, by decide, by decide, ?_⟩
  intro m hm
  rw [nbrs] at hm
  cases hf : gCyc.find? (fun kv => kv.1 == m) with
  | none =>
    rw [hf] at hm
    simp at hm
  | some kv =>
    rw [hf] at hm
    have hkv := List.mem_of_find?_eq_some hf
    simp only [gCyc] at hkv
    simp only [List.mem_cons, List.mem_singleton] at hkv
    rcases hkv with rfl | rfl | rfl | hkv
    · simp at hm
    · simp at hm
    · simp at hm
    · cases hkv

/-- C4: when the dependency graph builds successfully, (a) if the built
graph (restricted to known nodes) has zero cycles the analyzer reports no
issue at all, and (b) any declared two-cycle A→B→A yields at least one
high-severity dependency-category issue — though the issue's named file
need not lie on the cycle (see the counterexample). -/
theorem C4_theorem (ws : Workspace) (gr : List (String × List String))
    (l : List ValidationIssue)
    (hbuild : buildGraphE ws = .ok gr)
    (hrun : validateDependencyGraph ws = .ok l) :
    ((∀ x : String, ¬ Relation.TransGen (fun u w => w ∈ nbrs gr u) x x) → l = []) ∧
    (∀ a b : String, b ∈ nbrs gr a → a ∈ nbrs gr b → a ≠ b →
      ∃ i ∈ l, i.severity = "high" ∧ i.category = "dependency") := by
  have hbuild2 : buildGraphAux (allFilesList ws) []
      (configGlob ws ++ specsGlob ws ++ registryGlob ws) = .ok gr := hbuild
  have hgood : goodGraph gr (allFilesList ws) :=
    buildGraphAux_good (configGlob ws ++ specsGlob ws ++ registryGlob ws) [] gr
      (fun kv hkv => absurd hkv (List.not_mem_nil kv)) hbuild2
  have hnb := nbrs_good hgood
  rw [validateDependencyGraph] at hrun
  cases hB : buildGraphE ws with
  | error e =>
    rw [hB] at hbuild
    exact Except.noConfusion hbuild
  | ok gr2 =>
    simp only [hB] at hrun
    rw [hB] at hbuild
    injection hbuild with hg2
    subst hg2
    injection hrun with hl
    rw [missingDep_dead gr2 hgood, List.append_nil] at hl
    constructor
    · intro hacy
      rw [← hl]
      exact cycleOuter_sound (nbrs gr2) (allFilesList ws) hnb hacy
        (allFilesList ws) ⟨[], []⟩ (fun x hx => hx) rfl
    · intro a b hab hba hne
      have hane : cycleOuter (nbrs gr2) ((allFilesList ws).length + 1)
          (allFilesList ws) ⟨[], []⟩ ≠ [] :=
        cycleOuter_ne_nil (nbrs gr2) a b hab hba hne _ (allFilesList ws) ⟨[], []⟩
          (hnb b a hba) (List.not_mem_nil a) (List.not_mem_nil b)
      obtain ⟨i, hi⟩ := List.exists_mem_of_ne_nil _ hane
      obtain ⟨hs, hc⟩ := cycleOuter_highdep (nbrs gr2) _ (allFilesList ws) ⟨[], []⟩ i hi
      refine ⟨i, ?_, hs, hc⟩
      rw [← hl]
      exact hi

theorem C4_witness :
    ((∀ x : String, ¬ Relation.TransGen (fun u w => w ∈ nbrs gCyc u) x x) →
      [cycleIssue (nbrs gCyc) "root.c.yaml"] = []) ∧
    (∀ a b : String, b ∈ nbrs gCyc a → a ∈ nbrs gCyc b → a ≠ b →
      ∃ i ∈ [cycleIssue (nbrs gCyc) "root.c.yaml"],
        i.severity = "high" ∧ i.category = "dependency") :=
  C4_theorem wsCycleChain gCyc [cycleIssue (nbrs gCyc) "root.c.yaml"] rfl rfl
